import Mathlib

/-!
Verification of the chunk layer of the mako bundler
(`crates/mako/src/generate/chunk.rs`).

Strings are modelled as lists of characters (`Str`); Rust `u64`/`u32`
arithmetic is modelled on `Nat` with explicit `% 2 ^ 64` / `% 2 ^ 32`.
Fallible code (the `unwrap` calls in `Chunk::hash` and `Chunk::filename`)
is modelled with `Option` / `Except`, a `none` / `.error` marking exactly
the places where the Rust code would panic.
-/

namespace Mako

/-- Rust strings are modelled as lists of characters.  Rust `String`
ordering is byte-lexicographic on UTF-8, which coincides with
code-point-lexicographic ordering, modelled below by `strLe`. -/
abbrev Str := List Char

/-- Model of Rust `str::split(sep)`: splits at every occurrence of the
separator, keeping empty pieces; always returns at least one piece. -/
def splitOnChar (sep : Char) : Str → List Str
  | [] => [[]]
  | c :: cs =>
    match splitOnChar sep cs with
    | [] => [[c]]
    | h :: t => if c = sep then [] :: h :: t else (c :: h) :: t

/-- Modelled from the spec: a Module Reference (`crate::module::ModuleId`,
whose definition is not among the supplied sources).  It is an opaque
identifier carrying the module's logical id string (`id`), compared and
ordered by that string. -/
structure ModuleId where
  id : Str
deriving DecidableEq

/-- Modelled from the spec: the part of a module's info consumed here, the
precomputed 64-bit content hash (`raw_hash`, a `u64` in the source). -/
structure ModuleInfo where
  raw_hash : Nat
deriving DecidableEq

/-- Modelled from the spec: a module as stored in the module graph; its
`info` is optional (`m.info.as_ref().unwrap()` appears in `Chunk::hash`). -/
structure Module where
  info : Option ModuleInfo
deriving DecidableEq

/-- Modelled from the spec: the Module Graph collaborator, exposing
`get_module(ref) -> Option<Module>`. -/
structure ModuleGraph where
  get_module : ModuleId → Option Module

/-- `ChunkType` from the source (`Runtime`, `Entry(chunk_id, chunk_name,
is_shared_chunk)`, `Async`, `Sync`, `Worker(module_id)`). -/
inductive ChunkType where
  | Runtime : ChunkType
  | Entry : ModuleId → Str → Bool → ChunkType
  | Async : ChunkType
  | Sync : ChunkType
  | Worker : ModuleId → ChunkType
deriving DecidableEq

/-- The `matches!(self.chunk_type, ChunkType::Worker(_))` test from
`Chunk::filename`. -/
def ChunkType.isWorker : ChunkType → Bool
  | .Worker _ => true
  | _ => false

/-- The chunk kinds whose filename is derived from the id path
(the `Async | Sync | Worker(_)` arm of `Chunk::filename`). -/
def ChunkType.isAsyncStyle : ChunkType → Bool
  | .Async => true
  | .Sync => true
  | .Worker _ => true
  | _ => false

/-- `Chunk` from the source.  The `indexmap::IndexSet<ModuleId>` member set
is modelled as an insertion-ordered, duplicate-free list. -/
structure Chunk where
  id : ModuleId
  chunk_type : ChunkType
  modules : List ModuleId
  content : Option Str
  source_map : Option Str

/-- Model of `indexmap::IndexSet::insert`: appends at the tail if absent,
leaves the set (and its order) unchanged otherwise. -/
def indexSetInsert (l : List ModuleId) (x : ModuleId) : List ModuleId :=
  if x ∈ l then l else l ++ [x]

/-- Model of `indexmap::IndexSet::insert_full`: returns the set, the index
of the element, and whether it was newly inserted. -/
def indexSetInsertFull (l : List ModuleId) (x : ModuleId) :
    List ModuleId × Nat × Bool :=
  if x ∈ l then (l, List.indexOf x l, false) else (l ++ [x], l.length, true)

/-- Model of `indexmap::IndexSet::shift_remove_index`: removes the element
at the given index, shifting everything after it down. -/
def indexSetShiftRemoveIndex (l : List ModuleId) (i : Nat) : List ModuleId :=
  l.eraseIdx i

/-- Model of `indexmap::IndexSet::shift_remove`: removes the element if
present, preserving the order of the remaining elements. -/
def indexSetShiftRemove (l : List ModuleId) (x : ModuleId) : List ModuleId :=
  l.erase x

/-- `Chunk::new`. -/
def Chunk.new (id : ModuleId) (chunk_type : ChunkType) : Chunk :=
  ⟨id, chunk_type, [], none, none⟩

/-- `Chunk::add_module`: insert; if the module was already present, remove
it from its old position and reinsert it at the tail. -/
def Chunk.add_module (c : Chunk) (module_id : ModuleId) : Chunk :=
  match indexSetInsertFull c.modules module_id with
  | (l, pos, inserted) =>
    if inserted then ⟨c.id, c.chunk_type, l, c.content, c.source_map⟩
    else
      ⟨c.id, c.chunk_type,
        indexSetInsert (indexSetShiftRemoveIndex l pos) module_id,
        c.content, c.source_map⟩

/-- `Chunk::get_modules`. -/
def Chunk.get_modules (c : Chunk) : List ModuleId := c.modules

/-- `Chunk::remove_module`. -/
def Chunk.remove_module (c : Chunk) (module_id : ModuleId) : Chunk :=
  ⟨c.id, c.chunk_type, indexSetShiftRemove c.modules module_id,
    c.content, c.source_map⟩

/-- `Chunk::has_module`. -/
def Chunk.has_module (c : Chunk) (module_id : ModuleId) : Bool :=
  c.modules.contains module_id

/-- `FileRequest` from the source: the id split into its path and its
parsed query pairs. -/
structure FileRequest where
  path : Str
  query : List (Str × Str)
deriving DecidableEq

/-- The query-pair loop of `parse_path`: a pair containing `=` is split at
`=` and the first two pieces kept (`split('=').take(2)`; the `continue`
arm of the Rust `match` is unreachable because such a split always has at
least two pieces); a nonempty pair without `=` is kept with an empty
value; an empty pair is skipped. -/
def parseQueryPairs : List Str → List (Str × Str)
  | [] => []
  | pair :: rest =>
    if '=' ∈ pair then
      match splitOnChar '=' pair with
      | k :: v :: _ => (k, v) :: parseQueryPairs rest
      | _ => parseQueryPairs rest
    else if pair ≠ [] then (pair, []) :: parseQueryPairs rest
    else parseQueryPairs rest

/-- `parse_path` from the source: split the id at `?`; the path is the
first piece (`iter.next().unwrap()` — `none` here marks that panic point,
which never fires because a split is never empty), the raw query is the
second piece if any (`iter.next().unwrap_or("")`; any further pieces are
dropped), and the query pairs come from splitting the raw query at `&`. -/
def parse_path (path : Str) : Option FileRequest :=
  match splitOnChar '?' path with
  | [] => none
  | p :: rest => some ⟨p, parseQueryPairs (splitOnChar '&' (rest.headD []))⟩

/-- Model of `std::path::Component` for Unix paths.  `Component::Prefix`
occurs only on Windows paths and is never produced by the Unix model; the
source maps it to the same sentinel as `ParentDir`. -/
inductive Component where
  | RootDir : Component
  | CurDir : Component
  | ParentDir : Component
  | Normal : Str → Component
deriving DecidableEq

/-- The `Component::RootDir | Component::CurDir` filter from
`Chunk::filename`. -/
def Component.isRootOrCur : Component → Bool
  | .RootDir => true
  | .CurDir => true
  | _ => false

/-- Normalisation pass of `std::path::Path::components` over the pieces of
the path split at `/`: empty pieces vanish, a `.` piece survives (as
`CurDir`) only at the beginning of a relative path, `..` becomes
`ParentDir`, anything else is a `Normal` segment. -/
def pathComponentsAux (atStart : Bool) : List Str → List Component
  | [] => []
  | p :: rest =>
    if p = [] then pathComponentsAux atStart rest
    else if p = ['.'] then
      if atStart then Component.CurDir :: pathComponentsAux false rest
      else pathComponentsAux atStart rest
    else if p = ['.', '.'] then Component.ParentDir :: pathComponentsAux false rest
    else Component.Normal p :: pathComponentsAux false rest

/-- Model of `std::path::Path::components` for Unix paths: a leading `/`
yields `RootDir`, then the normalised pieces follow. -/
def pathComponents (s : Str) : List Component :=
  match s with
  | [] => []
  | c :: _ =>
    if c = '/' then Component.RootDir :: pathComponentsAux false (splitOnChar '/' s)
    else pathComponentsAux true (splitOnChar '/' s)

/-- The per-segment replacement from `Chunk::filename`:
`seg.to_string_lossy().replace(['.', '?'], "_")`. -/
def replaceDotQ (s : Str) : Str :=
  s.map (fun ch => if ch = '.' ∨ ch = '?' then '_' else ch)

/-- Model of `Vec::join(sep)`. -/
def joinWith (sep : Str) : List Str → Str
  | [] => []
  | [s] => s
  | s :: rest => s ++ sep ++ joinWith sep rest

/-- The component-to-segment map of `Chunk::filename` (the `RootDir` and
`CurDir` arms are dead: those components are filtered out first). -/
def componentToSeg : Component → Str
  | .ParentDir => "@".toList
  | .RootDir => []
  | .CurDir => []
  | .Normal seg => replaceDotQ seg

/-- The `key=value` pairs joined by `&` serialization of the parsed query,
from `Chunk::filename`. -/
def serializeQuery (q : List (Str × Str)) : Str :=
  joinWith ("&".toList) (q.map (fun kv => kv.1 ++ "=".toList ++ kv.2))

/-- Standard UTF-8 encoding of one character (Rust strings are UTF-8; the
`md5::compute(query)` call consumes the query string's UTF-8 bytes). -/
def utf8Char (c : Char) : List Nat :=
  let n := c.toNat
  if n < 128 then [n]
  else if n < 2048 then [192 + n / 64, 128 + n % 64]
  else if n < 65536 then [224 + n / 4096, 128 + n / 64 % 64, 128 + n % 64]
  else [240 + n / 262144, 128 + n / 4096 % 64, 128 + n / 64 % 64, 128 + n % 64]

/-- UTF-8 bytes of a string. -/
def utf8Bytes (s : Str) : List Nat :=
  s.foldr (fun c acc => utf8Char c ++ acc) []

/-- Left rotation of a 32-bit word. -/
def rotl32 (x k : Nat) : Nat :=
  (x * 2 ^ k + x / 2 ^ (32 - k)) % 2 ^ 32

/-- The 64 per-round additive constants of MD5 (RFC 1321). -/
def md5K : List Nat :=
  [0xd76aa478, 0xe8c7b756, 0x242070db, 0xc1bdceee,
   0xf57c0faf, 0x4787c62a, 0xa8304613, 0xfd469501,
   0x698098d8, 0x8b44f7af, 0xffff5bb1, 0x895cd7be,
   0x6b901122, 0xfd987193, 0xa679438e, 0x49b40821,
   0xf61e2562, 0xc040b340, 0x265e5a51, 0xe9b6c7aa,
   0xd62f105d, 0x02441453, 0xd8a1e681, 0xe7d3fbc8,
   0x21e1cde6, 0xc33707d6, 0xf4d50d87, 0x455a14ed,
   0xa9e3e905, 0xfcefa3f8, 0x676f02d9, 0x8d2a4c8a,
   0xfffa3942, 0x8771f681, 0x6d9d6122, 0xfde5380c,
   0xa4beea44, 0x4bdecfa9, 0xf6bb4b60, 0xbebfbc70,
   0x289b7ec6, 0xeaa127fa, 0xd4ef3085, 0x04881d05,
   0xd9d4d039, 0xe6db99e5, 0x1fa27cf8, 0xc4ac5665,
   0xf4292244, 0x432aff97, 0xab9423a7, 0xfc93a039,
   0x655b59c3, 0x8f0ccc92, 0xffeff47d, 0x85845dd1,
   0x6fa87e4f, 0xfe2ce6e0, 0xa3014314, 0x4e0811a1,
   0xf7537e82, 0xbd3af235, 0x2ad7d2bb, 0xeb86d391]

/-- The 64 per-round left-rotation amounts of MD5 (RFC 1321). -/
def md5S : List Nat :=
  [7, 12, 17, 22, 7, 12, 17, 22, 7, 12, 17, 22, 7, 12, 17, 22,
   5, 9, 14, 20, 5, 9, 14, 20, 5, 9, 14, 20, 5, 9, 14, 20,
   4, 11, 16, 23, 4, 11, 16, 23, 4, 11, 16, 23, 4, 11, 16, 23,
   6, 10, 15, 21, 6, 10, 15, 21, 6, 10, 15, 21, 6, 10, 15, 21]

/-- The round function of MD5 (F, G, H, I by round quarter). -/
def md5F (i b c d : Nat) : Nat :=
  if i < 16 then (b &&& c) ||| ((b ^^^ 0xffffffff) &&& d)
  else if i < 32 then (d &&& b) ||| ((d ^^^ 0xffffffff) &&& c)
  else if i < 48 then b ^^^ c ^^^ d
  else c ^^^ (b ||| (d ^^^ 0xffffffff))

/-- The message-word index of MD5 round `i`. -/
def md5G (i : Nat) : Nat :=
  if i < 16 then i
  else if i < 32 then (5 * i + 1) % 16
  else if i < 48 then (3 * i + 5) % 16
  else (7 * i) % 16

/-- One MD5 round over state `(a, b, c, d)` with message words `m`. -/
def md5Step (m : List Nat) (st : Nat × Nat × Nat × Nat) (i : Nat) :
    Nat × Nat × Nat × Nat :=
  match st with
  | (a, b, c, d) =>
    let f := (md5F i b c d + a + md5K.getD i 0 + m.getD (md5G i) 0) % 2 ^ 32
    (d, (b + rotl32 f (md5S.getD i 0)) % 2 ^ 32, b, c)

/-- Runs `fuel` MD5 rounds starting at round index `i`. -/
def md5LoopFrom (m : List Nat) (i fuel : Nat) (st : Nat × Nat × Nat × Nat) :
    Nat × Nat × Nat × Nat :=
  match fuel with
  | 0 => st
  | fuel + 1 => md5LoopFrom m (i + 1) fuel (md5Step m st i)

/-- One 512-bit MD5 block: 64 rounds, then add into the incoming state. -/
def md5ProcessBlock (st : Nat × Nat × Nat × Nat) (m : List Nat) :
    Nat × Nat × Nat × Nat :=
  match st, md5LoopFrom m 0 64 st with
  | (a0, b0, c0, d0), (a, b, c, d) =>
    ((a0 + a) % 2 ^ 32, (b0 + b) % 2 ^ 32, (c0 + c) % 2 ^ 32, (d0 + d) % 2 ^ 32)

/-- Accumulator pass for `chunksOf1`: `k` counts the remaining capacity of
the open chunk, whose elements are collected in reverse in `acc`. -/
def chunksAux (n : Nat) : Nat → List Nat → List Nat → List (List Nat)
  | _, acc, [] => if acc.isEmpty then [] else [acc.reverse]
  | 0, acc, x :: xs => (x :: acc).reverse :: chunksAux n n [] xs
  | k + 1, acc, x :: xs => chunksAux n k (x :: acc) xs

/-- Splits a byte list into chunks of `n + 1` bytes (the final chunk may be
shorter). -/
def chunksOf1 (n : Nat) (l : List Nat) : List (List Nat) :=
  chunksAux n n [] l

/-- Little-endian byte decoding of a word. -/
def bytesToNatLE (b : List Nat) : Nat :=
  b.foldr (fun byte acc => byte + 256 * acc) 0

/-- Little-endian bytes of a 32-bit word. -/
def u32LEBytes (n : Nat) : List Nat :=
  [n % 256, n / 256 % 256, n / 65536 % 256, n / 16777216 % 256]

/-- Little-endian bytes of a 64-bit word (a larger input is truncated, as
Rust's `u64` arithmetic would). -/
def u64LEBytes (n : Nat) : List Nat :=
  [n % 256, n / 256 % 256, n / 256 ^ 2 % 256, n / 256 ^ 3 % 256,
   n / 256 ^ 4 % 256, n / 256 ^ 5 % 256, n / 256 ^ 6 % 256, n / 256 ^ 7 % 256]

/-- MD5 padding: append `0x80`, zero-pad to 56 mod 64, append the bit
length as a little-endian 64-bit word. -/
def md5Pad (msg : List Nat) : List Nat :=
  msg ++ 0x80 :: (List.replicate ((119 - msg.length % 64) % 64) 0
    ++ u64LEBytes (8 * msg.length))

/-- MD5 initial state. -/
def md5Init : Nat × Nat × Nat × Nat :=
  (0x67452301, 0xefcdab89, 0x98badcfe, 0x10325476)

/-- MD5 digest (16 bytes) of a byte message — RFC 1321, as computed by the
`md5` crate used in the source. -/
def md5 (msg : List Nat) : List Nat :=
  match (chunksOf1 63 (md5Pad msg)).foldl
      (fun st block => md5ProcessBlock st ((chunksOf1 3 block).map bytesToNatLE))
      md5Init with
  | (a, b, c, d) => u32LEBytes a ++ u32LEBytes b ++ u32LEBytes c ++ u32LEBytes d

/-- The URL-safe base64 alphabet (`base64::engine::general_purpose::URL_SAFE`). -/
def base64UrlAlphabet : Str :=
  "ABCDEFGHIJKLMNOPQRSTUVWXYZabcdefghijklmnopqrstuvwxyz0123456789-_".toList

/-- Character of the URL-safe base64 alphabet at a 6-bit index. -/
def b64Char (n : Nat) : Char :=
  base64UrlAlphabet.getD n 'A'

/-- URL-safe base64 encoding with padding, as produced by
`general_purpose::URL_SAFE.encode`. -/
def base64UrlEncode : List Nat → Str
  | b1 :: b2 :: b3 :: rest =>
    let n := b1 * 65536 + b2 * 256 + b3
    b64Char (n / 262144 % 64) :: b64Char (n / 4096 % 64) ::
      b64Char (n / 64 % 64) :: b64Char (n % 64) :: base64UrlEncode rest
  | [b1, b2] =>
    let n := b1 * 65536 + b2 * 256
    [b64Char (n / 262144 % 64), b64Char (n / 4096 % 64), b64Char (n / 64 % 64), '=']
  | [b1] =>
    let n := b1 * 65536
    [b64Char (n / 262144 % 64), b64Char (n / 4096 % 64), '=', '=']
  | [] => []

/-- The `_q_{shortHash}` suffix hash of `Chunk::filename`: the first four
characters of the URL-safe base64 encoding of the MD5 digest of the
serialized query (`encode(md5::compute(query).0)[..4]`; the output is
ASCII, so the Rust byte slice `[..4]` is the first four characters). -/
def querySuffix4 (query : Str) : Str :=
  (base64UrlEncode (md5 (utf8Bytes query))).take 4

/-- The `Async | Sync | Worker(_)` arm of `Chunk::filename`; `none` marks
the `parse_path(..).ok().unwrap()` panic point. -/
def asyncStyleFilename (id : ModuleId) (isWorker : Bool) : Option Str :=
  match parse_path id.id with
  | none => none
  | some parsed =>
    let query := serializeQuery parsed.query
    let name :=
      joinWith ("_".toList)
        (((pathComponents parsed.path).filter
            (fun comp => ! comp.isRootOrCur)).map componentToSeg)
    let name :=
      if query = [] then name
      else name ++ "_q_".toList ++ querySuffix4 query
    some (name ++ "-".toList ++
      (if isWorker then "worker".toList else "async".toList) ++ ".js".toList)

/-- `Chunk::filename`. -/
def Chunk.filename (c : Chunk) : Option Str :=
  match c.chunk_type with
  | .Runtime => some ("runtime.js".toList)
  | .Entry _ name _ => some (name ++ ".js".toList)
  | .Async => asyncStyleFilename c.id c.chunk_type.isWorker
  | .Sync => asyncStyleFilename c.id c.chunk_type.isWorker
  | .Worker _ => asyncStyleFilename c.id c.chunk_type.isWorker

/-- Byte-lexicographic order on strings, the `Ord` used by
`sort_by_key(|m| m.id.clone())` (UTF-8 byte order coincides with
code-point order). -/
def strLe : Str → Str → Bool
  | [], _ => true
  | _ :: _, [] => false
  | a :: s, b :: t =>
    if a.toNat < b.toNat then true
    else if b.toNat < a.toNat then false
    else strLe s t

/-- The key order used by `sort_by_key(|m| m.id.clone())`: compare module
ids by their id strings. -/
def moduleIdLe (a b : ModuleId) : Bool := strLe a.id b.id

/-- Whether a member module resolves in the module graph with a content
hash — the condition under which the two `unwrap`s in `Chunk::hash`
succeed. -/
def resolves (mg : ModuleGraph) (id : ModuleId) : Bool :=
  match mg.get_module id with
  | none => false
  | some m => m.info.isSome

/-- The member-iteration of `Chunk::hash`: collect each member's
`raw_hash`; `.error id` marks the panic at the first member that is absent
from the graph or lacks its info. -/
def collectRawHashes (mg : ModuleGraph) : List ModuleId → Except ModuleId (List Nat)
  | [] => .ok []
  | id :: rest =>
    match mg.get_module id with
    | none => .error id
    | some m =>
      match m.info with
      | none => .error id
      | some info =>
        match collectRawHashes mg rest with
        | .error e => .error e
        | .ok hs => .ok (info.raw_hash :: hs)

/-- First xxHash64 prime. -/
def xxP1 : Nat := 11400714785074694791

/-- Second xxHash64 prime. -/
def xxP2 : Nat := 14029467366897019727

/-- Third xxHash64 prime. -/
def xxP3 : Nat := 1609587929392839161

/-- Fourth xxHash64 prime. -/
def xxP4 : Nat := 9650029242287828579

/-- Fifth xxHash64 prime. -/
def xxP5 : Nat := 2870177450012600261

/-- Left rotation of a 64-bit word. -/
def rotl64 (x k : Nat) : Nat :=
  (x * 2 ^ k + x / 2 ^ (64 - k)) % 2 ^ 64

/-- The xxHash64 accumulator round. -/
def xxRound (acc lane : Nat) : Nat :=
  rotl64 ((acc + lane * xxP2) % 2 ^ 64) 31 * xxP1 % 2 ^ 64

/-- The xxHash64 accumulator merge step. -/
def xxMergeRound (h v : Nat) : Nat :=
  ((h ^^^ xxRound 0 v) * xxP1 + xxP4) % 2 ^ 64

/-- The xxHash64 final avalanche. -/
def xxAvalanche (h : Nat) : Nat :=
  let h1 := (h ^^^ (h >>> 33)) * xxP2 % 2 ^ 64
  let h2 := (h1 ^^^ (h1 >>> 29)) * xxP3 % 2 ^ 64
  h2 ^^^ (h2 >>> 32)

/-- One 32-byte stripe over the four xxHash64 accumulators. -/
def xxStripe (v : Nat × Nat × Nat × Nat) (s : List Nat) : Nat × Nat × Nat × Nat :=
  match v with
  | (v1, v2, v3, v4) =>
    (xxRound v1 (bytesToNatLE (s.take 8)),
     xxRound v2 (bytesToNatLE ((s.drop 8).take 8)),
     xxRound v3 (bytesToNatLE ((s.drop 16).take 8)),
     xxRound v4 (bytesToNatLE ((s.drop 24).take 8)))

/-- xxHash64 of a byte message (`twox_hash::XxHash64`;
`Default::default()` seeds it with 0).  Streaming `write_u64` calls
followed by `finish` equal this one-shot hash of the concatenated
little-endian bytes: the streaming hasher only buffers its input. -/
def xxh64 (seed : Nat) (b : List Nat) : Nat :=
  let len := b.length
  let nStripes := len / 32
  let h :=
    if 32 ≤ len then
      match (chunksOf1 31 (b.take (nStripes * 32))).foldl xxStripe
          ((seed + xxP1 + xxP2) % 2 ^ 64, (seed + xxP2) % 2 ^ 64,
           seed % 2 ^ 64, (seed + (2 ^ 64 - xxP1)) % 2 ^ 64) with
      | (v1, v2, v3, v4) =>
        xxMergeRound (xxMergeRound (xxMergeRound (xxMergeRound
          ((rotl64 v1 1 + rotl64 v2 7 + rotl64 v3 12 + rotl64 v4 18) % 2 ^ 64)
          v1) v2) v3) v4
    else (seed + xxP5) % 2 ^ 64
  let tail := b.drop (nStripes * 32)
  let h := (h + len) % 2 ^ 64
  let words8 := tail.length / 8
  let h := (chunksOf1 7 (tail.take (words8 * 8))).foldl
    (fun h w => (rotl64 (h ^^^ xxRound 0 (bytesToNatLE w)) 27 * xxP1 + xxP4) % 2 ^ 64) h
  let rest := tail.drop (words8 * 8)
  let h :=
    if 4 ≤ rest.length then
      (rotl64 (h ^^^ bytesToNatLE (rest.take 4) * xxP1 % 2 ^ 64) 23 * xxP2 + xxP3) % 2 ^ 64
    else h
  let rest := if 4 ≤ rest.length then rest.drop 4 else rest
  let h := rest.foldl
    (fun h byte => rotl64 (h ^^^ byte * xxP5 % 2 ^ 64) 11 * xxP1 % 2 ^ 64) h
  xxAvalanche h

/-- `Chunk::hash`: clone the member set, sort it by the id string
(`sort_by_key(|m| m.id.clone())`, a stable sort, modelled by `mergeSort`
under the same key order), then stream each member's `raw_hash` through an
`XxHash64` seeded by `Default::default()` (seed 0) and finish. -/
def Chunk.hash (c : Chunk) (mg : ModuleGraph) : Except ModuleId Nat :=
  let sorted_module_ids := c.modules.mergeSort moduleIdLe
  match collectRawHashes mg sorted_module_ids with
  | .error e => .error e
  | .ok hs => .ok (xxh64 0 (hs.map u64LEBytes).flatten)

/-! ### Basic facts about the helper functions -/

/-- A split never produces an empty list of pieces — the reason the
`iter.next().unwrap()` in `parse_path` cannot panic. -/
theorem splitOnChar_ne_nil (sep : Char) (s : Str) : splitOnChar sep s ≠ [] := by
  cases s with
  | nil => simp [splitOnChar]
  | cons c cs =>
    simp only [splitOnChar]
    cases h : splitOnChar sep cs with
    | nil => simp
    | cons hd tl =>
      by_cases hcs : c = sep <;> simp [hcs]

/-- `parse_path` always succeeds. -/
theorem parse_path_total (s : Str) : ∃ fr, parse_path s = some fr := by
  unfold parse_path
  cases h : splitOnChar '?' s with
  | nil => exact absurd h (splitOnChar_ne_nil _ _)
  | cons p rest => exact ⟨_, rfl⟩

theorem char_toNat_inj {a b : Char} (h : a.toNat = b.toNat) : a = b := by
  have h2 := congrArg Char.ofNat h
  simpa [Char.ofNat_toNat] using h2

theorem strLe_total (s t : Str) : strLe s t = true ∨ strLe t s = true := by
  induction s generalizing t with
  | nil => left; rfl
  | cons a s ih =>
    cases t with
    | nil => right; rfl
    | cons b t =>
      by_cases h1 : a.toNat < b.toNat
      · left; simp [strLe, h1]
      · by_cases h2 : b.toNat < a.toNat
        · right; simp [strLe, h2]
        · rcases ih t with hh | hh
          · left; simp [strLe, h1, h2, hh]
          · right; simp [strLe, h1, h2, hh]

theorem strLe_trans {s t u : Str} (h1 : strLe s t = true) (h2 : strLe t u = true) :
    strLe s u = true := by
  induction s generalizing t u with
  | nil => rfl
  | cons a s ih =>
    cases t with
    | nil => simp [strLe] at h1
    | cons b t =>
      cases u with
      | nil => simp [strLe] at h2
      | cons c u =>
        simp only [strLe] at h1 h2 ⊢
        have hab : a.toNat ≤ b.toNat := by
          by_contra hc
          have hba : b.toNat < a.toNat := by omega
          have hnab : ¬ a.toNat < b.toNat := by omega
          simp [hnab, hba] at h1
        have hbc : b.toNat ≤ c.toNat := by
          by_contra hc
          have hcb : c.toNat < b.toNat := by omega
          have hnbc : ¬ b.toNat < c.toNat := by omega
          simp [hnbc, hcb] at h2
        by_cases hac : a.toNat < c.toNat
        · simp [hac]
        · have hca : ¬ c.toNat < a.toNat := by omega
          have hnab : ¬ a.toNat < b.toNat := by omega
          have hnba : ¬ b.toNat < a.toNat := by omega
          have hnbc : ¬ b.toNat < c.toNat := by omega
          have hncb : ¬ c.toNat < b.toNat := by omega
          simp [hnab, hnba] at h1
          simp [hnbc, hncb] at h2
          simp [hac, hca]
          exact ih h1 h2

theorem strLe_antisymm {s t : Str} (h1 : strLe s t = true) (h2 : strLe t s = true) :
    s = t := by
  induction s generalizing t with
  | nil =>
    cases t with
    | nil => rfl
    | cons b t => simp [strLe] at h2
  | cons a s ih =>
    cases t with
    | nil => simp [strLe] at h1
    | cons b t =>
      simp only [strLe] at h1 h2
      by_cases hab : a.toNat < b.toNat
      · have hba : ¬ b.toNat < a.toNat := by omega
        simp [hab, hba] at h2
      · by_cases hba : b.toNat < a.toNat
        · simp [hab, hba] at h1
        · have hab2 : a = b := char_toNat_inj (by omega)
          simp [hab, hba] at h1 h2
          exact hab2 ▸ congrArg (a :: ·) (ih h1 h2)

theorem moduleIdLe_trans : ∀ (a b c : ModuleId),
    moduleIdLe a b → moduleIdLe b c → moduleIdLe a c := by
  intro a b c h1 h2
  exact strLe_trans h1 h2

theorem moduleIdLe_total : ∀ (a b : ModuleId), moduleIdLe a b || moduleIdLe b a := by
  intro a b
  rcases strLe_total a.id b.id with h | h <;> simp [moduleIdLe, h]

theorem moduleIdLe_antisymm {a b : ModuleId}
    (h1 : moduleIdLe a b = true) (h2 : moduleIdLe b a = true) : a = b := by
  cases a; cases b
  simpa using strLe_antisymm h1 h2

/-- Two member lists that are permutations of one another sort to the same
list: the key order is total, transitive and antisymmetric. -/
theorem mergeSort_eq_of_perm {l1 l2 : List ModuleId} (h : l1.Perm l2) :
    l1.mergeSort moduleIdLe = l2.mergeSort moduleIdLe := by
  haveI : IsAntisymm ModuleId (fun a b => moduleIdLe a b = true) :=
    ⟨fun _ _ h1 h2 => moduleIdLe_antisymm h1 h2⟩
  exact List.eq_of_perm_of_sorted
    (((l1.mergeSort_perm moduleIdLe).trans h).trans (l2.mergeSort_perm moduleIdLe).symm)
    (List.sorted_mergeSort moduleIdLe_trans moduleIdLe_total l1)
    (List.sorted_mergeSort moduleIdLe_trans moduleIdLe_total l2)

/-- If the separator does not occur, the split is the whole string as one
piece. -/
theorem splitOnChar_of_not_mem {sep : Char} {s : Str} (h : sep ∉ s) :
    splitOnChar sep s = [s] := by
  induction s with
  | nil => rfl
  | cons c cs ih =>
    have hcs : sep ∉ cs := fun hm => h (List.mem_cons_of_mem _ hm)
    have hc : ¬ c = sep := fun he => h (he ▸ List.mem_cons_self _ _)
    simp [splitOnChar, ih hcs, hc]

/-! ### Claim theorems: filename, easy kinds -/

/-- Claim C7: for every chunk of kind Entry, `filename()` is the
caller-supplied entry name followed by `.js`, independent of the chunk id
and of the member set; in particular kind `Entry(_, "foo_bar", false)`
yields `foo_bar.js` whatever the id. -/
theorem entry_filename_is_entry_name :
    (∀ (id eid : ModuleId) (name : Str) (flag : Bool) (mods : List ModuleId)
        (ct sm : Option Str),
        Chunk.filename ⟨id, ChunkType.Entry eid name flag, mods, ct, sm⟩ =
          some (name ++ ".js".toList)) ∧
    (∀ (id : ModuleId) (mods : List ModuleId),
        Chunk.filename
            ⟨id, ChunkType.Entry ⟨"whatever".toList⟩ ("foo_bar".toList) false,
              mods, none, none⟩ =
          some ("foo_bar.js".toList)) := by
  constructor
  · intro id eid name flag mods ct sm
    rfl
  · intro id mods
    rfl

/-- Claim C8: for every chunk of kind Runtime, regardless of id and member
set, `filename()` is the fixed literal `runtime.js`. -/
theorem runtime_filename_fixed :
    ∀ (id : ModuleId) (mods : List ModuleId) (ct sm : Option Str),
      Chunk.filename ⟨id, ChunkType.Runtime, mods, ct, sm⟩ =
        some ("runtime.js".toList) := by
  intro id mods ct sm
  rfl

/-- Claim C10: `filename()` is total for every chunk id string: the
path/query parser always succeeds — an id with no query marker yields an
empty query list, a nonempty query pair without `=` is kept with an empty
value, an empty pair is skipped — so the unwrap of the parse result inside
`filename` never panics. -/
theorem parse_path_never_fails :
    (∀ s : Str, ∃ fr, parse_path s = some fr) ∧
    (∀ s : Str, '?' ∉ s → ∃ fr, parse_path s = some fr ∧ fr.query = []) ∧
    (∀ c : Chunk, c.chunk_type.isAsyncStyle = true → (c.filename).isSome = true) ∧
    parse_path ("p?a&b=1&&c=".toList) =
      some ⟨"p".toList,
        [("a".toList, []), ("b".toList, "1".toList), ("c".toList, [])]⟩ := by
  refine ⟨parse_path_total, ?_, ?_, by decide⟩
  · intro s hq
    refine ⟨⟨s, []⟩, ?_, rfl⟩
    simp [parse_path, splitOnChar_of_not_mem hq]
    rfl
  · intro c hstyle
    obtain ⟨fr, hfr⟩ := parse_path_total c.id.id
    cases hct : c.chunk_type with
    | Runtime => rw [hct] at hstyle; simp [ChunkType.isAsyncStyle] at hstyle
    | Entry a b f => rw [hct] at hstyle; simp [ChunkType.isAsyncStyle] at hstyle
    | Async => simp [Chunk.filename, hct, asyncStyleFilename, hfr]
    | Sync => simp [Chunk.filename, hct, asyncStyleFilename, hfr]
    | Worker w => simp [Chunk.filename, hct, asyncStyleFilename, hfr]

/-- Witness for C10 at concrete inputs. -/
theorem parse_path_never_fails_witness :
    ('?' ∉ ("src/a.ts".toList)) ∧
    (∃ fr, parse_path ("src/a.ts".toList) = some fr ∧ fr.query = []) ∧
    ((Chunk.new ⟨"x.ts".toList⟩ ChunkType.Async).chunk_type.isAsyncStyle = true) ∧
    ((Chunk.new ⟨"x.ts".toList⟩ ChunkType.Async).filename).isSome = true :=
  ⟨by decide, parse_path_never_fails.2.1 _ (by decide), by decide,
    parse_path_never_fails.2.2.1 _ (by decide)⟩

/-! ### Claim theorems: member-set mutation -/

/-- Removing the element at the index reported by `insert_full` for an
already-present element removes exactly the first occurrence of that
element. -/
theorem eraseIdx_indexOf_eq_erase (l : List ModuleId) (x : ModuleId) :
    l.eraseIdx (List.indexOf x l) = l.erase x := by
  induction l with
  | nil => rfl
  | cons a t ih =>
    by_cases hax : a = x
    · subst hax
      simp [List.indexOf_cons_self, List.eraseIdx]
    · rw [List.indexOf_cons_ne _ hax, List.erase_cons_tail]
      · simp [ih]
      · simpa using hax

/-- Claim C2: for every chunk with a duplicate-free member set and every
module reference, `add_module` keeps the set duplicate-free; afterwards
membership is the old membership plus the new reference; re-adding a
present reference keeps the size and moves the reference to the tail
(reordering, with all other members keeping their relative order); adding
an absent reference appends it. -/
theorem add_module_existing_moves_to_tail (c : Chunk) (x : ModuleId)
    (hnd : c.modules.Nodup) :
    ((c.add_module x).modules.Nodup) ∧
    (∀ y, y ∈ (c.add_module x).modules ↔ y ∈ c.modules ∨ y = x) ∧
    (x ∈ c.modules →
      (c.add_module x).modules.length = c.modules.length ∧
      (c.add_module x).modules = c.modules.erase x ++ [x]) ∧
    (x ∉ c.modules → (c.add_module x).modules = c.modules ++ [x]) := by
  by_cases hx : x ∈ c.modules
  · have hmods : (c.add_module x).modules = c.modules.erase x ++ [x] := by
      simp [Chunk.add_module, indexSetInsertFull, hx, indexSetInsert,
        indexSetShiftRemoveIndex, eraseIdx_indexOf_eq_erase,
        (hnd.not_mem_erase : x ∉ _)]
    refine ⟨?_, ?_, fun _ => ⟨?_, hmods⟩, fun hc => absurd hx hc⟩
    · rw [hmods]
      refine List.nodup_append.2 ⟨hnd.erase x, List.nodup_singleton x, ?_⟩
      intro a ha hax
      rw [List.mem_singleton] at hax
      subst hax
      exact hnd.not_mem_erase ha
    · intro y
      rw [hmods]
      simp only [List.mem_append, List.mem_singleton, hnd.mem_erase_iff]
      by_cases hyx : y = x
      · subst hyx; simp [hx]
      · simp [hyx]
    · rw [hmods]
      simp [List.length_erase_add_one hx]
  · have hmods : (c.add_module x).modules = c.modules ++ [x] := by
      simp [Chunk.add_module, indexSetInsertFull, hx]
    refine ⟨?_, ?_, fun hc => absurd hc hx, fun _ => hmods⟩
    · rw [hmods]
      refine List.nodup_append.2 ⟨hnd, List.nodup_singleton x, ?_⟩
      intro a ha hax
      rw [List.mem_singleton] at hax
      subst hax
      exact hx ha
    · intro y
      rw [hmods]
      simp

/-- Witness for C2 on a concrete two-element member set. -/
theorem add_module_existing_moves_to_tail_witness :
    ((Chunk.mk ⟨"x".toList⟩ ChunkType.Async
        [⟨"a".toList⟩, ⟨"b".toList⟩] none none).modules.Nodup) ∧
    (((Chunk.mk ⟨"x".toList⟩ ChunkType.Async
        [⟨"a".toList⟩, ⟨"b".toList⟩] none none).add_module
          ⟨"a".toList⟩).modules.Nodup ∧
      (∀ y, y ∈ ((Chunk.mk ⟨"x".toList⟩ ChunkType.Async
          [⟨"a".toList⟩, ⟨"b".toList⟩] none none).add_module
            ⟨"a".toList⟩).modules ↔
        y ∈ [(⟨"a".toList⟩ : ModuleId), ⟨"b".toList⟩] ∨ y = ⟨"a".toList⟩) ∧
      ((⟨"a".toList⟩ : ModuleId) ∈
          [(⟨"a".toList⟩ : ModuleId), ⟨"b".toList⟩] →
        ((Chunk.mk ⟨"x".toList⟩ ChunkType.Async
            [⟨"a".toList⟩, ⟨"b".toList⟩] none none).add_module
              ⟨"a".toList⟩).modules.length =
          [(⟨"a".toList⟩ : ModuleId), ⟨"b".toList⟩].length ∧
        ((Chunk.mk ⟨"x".toList⟩ ChunkType.Async
            [⟨"a".toList⟩, ⟨"b".toList⟩] none none).add_module
              ⟨"a".toList⟩).modules =
          [(⟨"a".toList⟩ : ModuleId), ⟨"b".toList⟩].erase ⟨"a".toList⟩ ++
            [⟨"a".toList⟩]) ∧
      ((⟨"a".toList⟩ : ModuleId) ∉
          [(⟨"a".toList⟩ : ModuleId), ⟨"b".toList⟩] →
        ((Chunk.mk ⟨"x".toList⟩ ChunkType.Async
            [⟨"a".toList⟩, ⟨"b".toList⟩] none none).add_module
              ⟨"a".toList⟩).modules =
          [(⟨"a".toList⟩ : ModuleId), ⟨"b".toList⟩] ++ [⟨"a".toList⟩])) :=
  ⟨by decide,
    add_module_existing_moves_to_tail
      (Chunk.mk ⟨"x".toList⟩ ChunkType.Async
        [⟨"a".toList⟩, ⟨"b".toList⟩] none none)
      ⟨"a".toList⟩ (by decide)⟩

/-- Claim C9: `remove_module` removes the reference when present
(preserving the order of the others), is a no-op without error when
absent, and touches no other member. -/
theorem remove_module_spec (c : Chunk) (x : ModuleId) :
    ((c.remove_module x).modules = c.modules.erase x) ∧
    (x ∉ c.modules → c.remove_module x = c) ∧
    (c.modules.Nodup →
      ∀ y, (y ∈ (c.remove_module x).modules ↔ y ∈ c.modules ∧ y ≠ x)) := by
  refine ⟨rfl, ?_, ?_⟩
  · intro hx
    have he : c.modules.erase x = c.modules := List.erase_of_not_mem hx
    cases c with
    | mk id ty mods ct sm =>
      simp only [Chunk.remove_module, indexSetShiftRemove] at he ⊢
      rw [he]
  · intro hnd y
    simp only [Chunk.remove_module, indexSetShiftRemove, hnd.mem_erase_iff]
    exact and_comm

/-- Witness for C9: removal of an absent and of a present reference. -/
theorem remove_module_spec_witness :
    ((⟨"zz".toList⟩ : ModuleId) ∉
        (Chunk.mk ⟨"x".toList⟩ ChunkType.Async
          [⟨"a".toList⟩, ⟨"b".toList⟩] none none).modules) ∧
    ((Chunk.mk ⟨"x".toList⟩ ChunkType.Async
        [⟨"a".toList⟩, ⟨"b".toList⟩] none none).remove_module ⟨"zz".toList⟩ =
      Chunk.mk ⟨"x".toList⟩ ChunkType.Async
        [⟨"a".toList⟩, ⟨"b".toList⟩] none none) ∧
    (∀ y, y ∈ ((Chunk.mk ⟨"x".toList⟩ ChunkType.Async
        [⟨"a".toList⟩, ⟨"b".toList⟩] none none).remove_module
          ⟨"a".toList⟩).modules ↔
      y ∈ [(⟨"a".toList⟩ : ModuleId), ⟨"b".toList⟩] ∧ y ≠ ⟨"a".toList⟩) :=
  ⟨by decide,
    (remove_module_spec _ _).2.1 (by decide),
    (remove_module_spec _ _).2.2 (by decide)⟩

/-! ### Claim theorems: content hashing -/

/-- The xxHash64 avalanche yields a 64-bit value. -/
theorem xxAvalanche_lt (h : Nat) : xxAvalanche h < 2 ^ 64 := by
  have key : ∀ a : Nat, (a % 2 ^ 64) ^^^ ((a % 2 ^ 64) >>> 32) < 2 ^ 64 := by
    intro a
    have ha : a % 2 ^ 64 < 2 ^ 64 := Nat.mod_lt _ (by norm_num)
    refine Nat.xor_lt_two_pow ha (Nat.lt_of_le_of_lt ?_ ha)
    rw [Nat.shiftRight_eq_div_pow]
    exact Nat.div_le_self _ _
  exact key _

/-- xxHash64 yields a 64-bit value. -/
theorem xxh64_lt (seed : Nat) (b : List Nat) : xxh64 seed b < 2 ^ 64 :=
  xxAvalanche_lt _

/-- If every member resolves with a content hash, collecting the raw
hashes succeeds. -/
theorem collectRawHashes_ok (mg : ModuleGraph) (l : List ModuleId)
    (h : ∀ id ∈ l, resolves mg id = true) :
    ∃ hs, collectRawHashes mg l = .ok hs := by
  induction l with
  | nil => exact ⟨[], rfl⟩
  | cons a t ih =>
    have ha := h a (List.mem_cons_self _ _)
    obtain ⟨hs, hhs⟩ := ih (fun id hid => h id (List.mem_cons_of_mem _ hid))
    unfold resolves at ha
    cases hga : mg.get_module a with
    | none => simp [hga] at ha
    | some m =>
      simp only [hga] at ha
      cases hinfo : m.info with
      | none => simp [hinfo] at ha
      | some info =>
        exact ⟨info.raw_hash :: hs, by simp [collectRawHashes, hga, hinfo, hhs]⟩

/-- A collection failure identifies a member that does not resolve. -/
theorem collectRawHashes_error_mem {mg : ModuleGraph} {l : List ModuleId}
    {e : ModuleId} (h : collectRawHashes mg l = .error e) :
    e ∈ l ∧ resolves mg e = false := by
  induction l with
  | nil => simp [collectRawHashes] at h
  | cons a t ih =>
    simp only [collectRawHashes] at h
    cases hga : mg.get_module a with
    | none =>
      simp only [hga, Except.error.injEq] at h
      subst h
      exact ⟨List.mem_cons_self _ _, by simp [resolves, hga]⟩
    | some m =>
      simp only [hga] at h
      cases hinfo : m.info with
      | none =>
        simp only [hinfo, Except.error.injEq] at h
        subst h
        exact ⟨List.mem_cons_self _ _, by simp [resolves, hga, hinfo]⟩
      | some info =>
        simp only [hinfo] at h
        cases hcol : collectRawHashes mg t with
        | error e2 =>
          simp only [hcol, Except.error.injEq] at h
          subst h
          obtain ⟨hm, hb⟩ := ih hcol
          exact ⟨List.mem_cons_of_mem _ hm, hb⟩
        | ok hs => simp [hcol] at h

/-- A member that does not resolve makes the collection fail. -/
theorem collectRawHashes_error_of_bad {mg : ModuleGraph} {l : List ModuleId}
    {id : ModuleId} (hmem : id ∈ l) (hbad : resolves mg id = false) :
    ∃ e, collectRawHashes mg l = .error e := by
  induction l with
  | nil => cases hmem
  | cons a t ih =>
    cases hga : mg.get_module a with
    | none => exact ⟨a, by simp [collectRawHashes, hga]⟩
    | some m =>
      cases hinfo : m.info with
      | none => exact ⟨a, by simp [collectRawHashes, hga, hinfo]⟩
      | some info =>
        rcases List.mem_cons.1 hmem with rfl | hmem2
        · exfalso
          simp [resolves, hga, hinfo] at hbad
        · obtain ⟨e, he⟩ := ih hmem2
          exact ⟨e, by simp [collectRawHashes, hga, hinfo, he]⟩

/-- Claim C1: for any two chunks with the same member set (duplicate-free,
as the `IndexSet` guarantees) whose members all resolve in the module
graph, `hash` returns the same 64-bit value, whatever the order the
modules were added in: members are sorted by id before streaming. -/
theorem chunk_hash_independent_of_insertion_order (mg : ModuleGraph)
    (c1 c2 : Chunk) (h1 : c1.modules.Nodup) (h2 : c2.modules.Nodup)
    (hmem : ∀ m, m ∈ c1.modules ↔ m ∈ c2.modules)
    (hres : ∀ id ∈ c1.modules, resolves mg id = true) :
    ∃ v, v < 2 ^ 64 ∧ c1.hash mg = .ok v ∧ c2.hash mg = .ok v := by
  have hperm : c1.modules.Perm c2.modules :=
    (List.perm_ext_iff_of_nodup h1 h2).2 hmem
  have hsort : c1.modules.mergeSort moduleIdLe = c2.modules.mergeSort moduleIdLe :=
    mergeSort_eq_of_perm hperm
  have hresL : ∀ id ∈ c1.modules.mergeSort moduleIdLe, resolves mg id = true :=
    fun id hid => hres id (List.mem_mergeSort.1 hid)
  obtain ⟨hs, hcol⟩ := collectRawHashes_ok mg _ hresL
  refine ⟨xxh64 0 ((hs.map u64LEBytes).flatten), xxh64_lt _ _, ?_, ?_⟩
  · simp only [Chunk.hash]
    rw [hcol]
  · simp only [Chunk.hash]
    rw [← hsort, hcol]

/-- Witness for C1: two permuted two-member chunks over a concrete module
graph hash to the same value. -/
theorem chunk_hash_independent_of_insertion_order_witness :
    ((Chunk.mk ⟨"x".toList⟩ ChunkType.Async
        [⟨"a".toList⟩, ⟨"b".toList⟩] none none).modules.Nodup) ∧
    ((Chunk.mk ⟨"y".toList⟩ ChunkType.Async
        [⟨"b".toList⟩, ⟨"a".toList⟩] none none).modules.Nodup) ∧
    (∀ id ∈ (Chunk.mk ⟨"x".toList⟩ ChunkType.Async
        [⟨"a".toList⟩, ⟨"b".toList⟩] none none).modules,
      resolves (ModuleGraph.mk (fun id =>
        if id = ⟨"a".toList⟩ then some ⟨some ⟨11⟩⟩
        else if id = ⟨"b".toList⟩ then some ⟨some ⟨22⟩⟩ else none)) id = true) ∧
    (∃ v, v < 2 ^ 64 ∧
      (Chunk.mk ⟨"x".toList⟩ ChunkType.Async
        [⟨"a".toList⟩, ⟨"b".toList⟩] none none).hash
          (ModuleGraph.mk (fun id =>
            if id = ⟨"a".toList⟩ then some ⟨some ⟨11⟩⟩
            else if id = ⟨"b".toList⟩ then some ⟨some ⟨22⟩⟩ else none)) = .ok v ∧
      (Chunk.mk ⟨"y".toList⟩ ChunkType.Async
        [⟨"b".toList⟩, ⟨"a".toList⟩] none none).hash
          (ModuleGraph.mk (fun id =>
            if id = ⟨"a".toList⟩ then some ⟨some ⟨11⟩⟩
            else if id = ⟨"b".toList⟩ then some ⟨some ⟨22⟩⟩ else none)) = .ok v) :=
  ⟨by decide, by decide, by decide,
    chunk_hash_independent_of_insertion_order _ _ _ (by decide) (by decide)
      (fun m => List.Perm.mem_iff (by decide))
      (by decide)⟩

/-- Claim C3: `hash` fails exactly when some member is absent from the
module graph or lacks a precomputed content hash; the failure value
identifies an offending member reference (the code panics there rather
than silently skipping the member); under the precondition that every
member resolves, `hash` never fails. -/
theorem chunk_hash_failure_characterization (c : Chunk) (mg : ModuleGraph) :
    (∀ e, c.hash mg = .error e → e ∈ c.modules ∧ resolves mg e = false) ∧
    ((∀ id ∈ c.modules, resolves mg id = true) → ∃ v, c.hash mg = .ok v) ∧
    ((∃ id ∈ c.modules, resolves mg id = false) → ∃ e, c.hash mg = .error e) := by
  refine ⟨?_, ?_, ?_⟩
  · intro e he
    simp only [Chunk.hash] at he
    cases hcol : collectRawHashes mg (c.modules.mergeSort moduleIdLe) with
    | ok hs => rw [hcol] at he; simp at he
    | error e2 =>
      rw [hcol] at he
      simp only [Except.error.injEq] at he
      subst he
      obtain ⟨hm, hb⟩ := collectRawHashes_error_mem hcol
      exact ⟨List.mem_mergeSort.1 hm, hb⟩
  · intro hres
    obtain ⟨hs, hcol⟩ := collectRawHashes_ok mg _
      (fun id hid => hres id (List.mem_mergeSort.1 hid))
    refine ⟨xxh64 0 ((hs.map u64LEBytes).flatten), ?_⟩
    simp only [Chunk.hash]
    rw [hcol]
  · rintro ⟨id, hid, hbad⟩
    obtain ⟨e, he⟩ := collectRawHashes_error_of_bad
      (List.mem_mergeSort.2 hid) hbad
    refine ⟨e, ?_⟩
    simp only [Chunk.hash]
    rw [he]

/-- Witness for C3: a chunk with an unresolved member fails at a concrete
offending member; a chunk whose members resolve hashes successfully. -/
theorem chunk_hash_failure_characterization_witness :
    ((⟨"bad".toList⟩ : ModuleId) ∈
        (Chunk.mk ⟨"x".toList⟩ ChunkType.Async
          [⟨"a".toList⟩, ⟨"bad".toList⟩] none none).modules ∧
      resolves (ModuleGraph.mk (fun id =>
        if id = ⟨"a".toList⟩ then some ⟨some ⟨11⟩⟩ else none))
        ⟨"bad".toList⟩ = false) ∧
    (∃ e, (Chunk.mk ⟨"x".toList⟩ ChunkType.Async
        [⟨"a".toList⟩, ⟨"bad".toList⟩] none none).hash
          (ModuleGraph.mk (fun id =>
            if id = ⟨"a".toList⟩ then some ⟨some ⟨11⟩⟩ else none)) = .error e) ∧
    (∃ v, (Chunk.mk ⟨"x".toList⟩ ChunkType.Async
        [⟨"a".toList⟩] none none).hash
          (ModuleGraph.mk (fun id =>
            if id = ⟨"a".toList⟩ then some ⟨some ⟨11⟩⟩ else none)) = .ok v) :=
  ⟨⟨by decide, by decide⟩,
    (chunk_hash_failure_characterization _ _).2.2
      ⟨⟨"bad".toList⟩, by decide, by decide⟩,
    (chunk_hash_failure_characterization _ _).2.1 (by decide)⟩

/-! ### Claim theorems: path-derived filenames (refinement against the
spec's wording) -/

/-- Follows the spec's words (claim C6), per-segment: drop root and
current-dir segments, map parent-dir segments to the fixed sentinel `@`,
and replace literal dot and query-marker characters inside a segment with
underscore. -/
def specSegMap (seg : Str) : Option Str :=
  if seg = [] ∨ seg = ['.'] then none
  else if seg = ['.', '.'] then some ("@".toList)
  else some (replaceDotQ seg)

/-- Follows the spec's words (claim C6): split the id's logical path into
segments, apply `specSegMap`, and join the remaining segments with an
underscore.  To be compared with the `Path::components`-based pipeline of
the source. -/
def specPathName (path : Str) : Str :=
  joinWith ("_".toList) ((splitOnChar '/' path).filterMap specSegMap)

theorem isRootOrCur_RootDir : Component.isRootOrCur Component.RootDir = true := rfl

theorem isRootOrCur_CurDir : Component.isRootOrCur Component.CurDir = true := rfl

theorem isRootOrCur_ParentDir : Component.isRootOrCur Component.ParentDir = false := rfl

theorem isRootOrCur_Normal (s : Str) :
    Component.isRootOrCur (Component.Normal s) = false := rfl

/-- The component pipeline of the source equals the segment pipeline of
the spec, piece by piece (for either value of the leading-dot flag). -/
theorem pathComponentsAux_pipeline (pieces : List Str) :
    ∀ flag, ((pathComponentsAux flag pieces).filter
        (fun comp => ! comp.isRootOrCur)).map componentToSeg =
      pieces.filterMap specSegMap := by
  induction pieces with
  | nil => intro flag; rfl
  | cons p rest ih =>
    intro flag
    by_cases h1 : p = []
    · simp [pathComponentsAux, h1, specSegMap, ih]
    · by_cases h2 : p = ['.']
      · cases flag <;>
          simp [pathComponentsAux, h1, h2, specSegMap, ih, isRootOrCur_CurDir]
      · by_cases h3 : p = ['.', '.'] <;>
          simp [pathComponentsAux, h1, h2, h3, specSegMap, ih,
            isRootOrCur_ParentDir, isRootOrCur_Normal, componentToSeg]

/-- The filtered-and-mapped `Path::components` of the source equal the
spec's split-and-map segments, for every path. -/
theorem pathComponents_pipeline (s : Str) :
    ((pathComponents s).filter (fun comp => ! comp.isRootOrCur)).map
        componentToSeg =
      (splitOnChar '/' s).filterMap specSegMap := by
  cases s with
  | nil => rfl
  | cons c cs =>
    simp only [pathComponents]
    by_cases hc : c = '/'
    · simp [hc, isRootOrCur_RootDir, pathComponentsAux_pipeline]
    · rw [if_neg hc]
      exact pathComponentsAux_pipeline _ true

/-- The `Async | Sync | Worker(_)` filename arm, for an id without query
parameters, is the spec's path-derived name plus the kind suffix and the
extension. -/
theorem asyncStyleFilename_no_query (id : ModuleId) (parsed : FileRequest)
    (w : Bool) (hp : parse_path id.id = some parsed) (hq : parsed.query = []) :
    asyncStyleFilename id w =
      some (specPathName parsed.path ++ "-".toList ++
        (if w then "worker".toList else "async".toList) ++ ".js".toList) := by
  simp only [asyncStyleFilename, hp]
  rw [hq]
  simp [serializeQuery, joinWith, specPathName, pathComponents_pipeline]

/-- Claim C6: for Async/Sync/Worker chunks, `filename()` is obtained by
splitting the id's logical path into segments, dropping root and
current-dir segments, mapping parent-dir segments to the sentinel `@`,
joining the rest with underscores while replacing dot and query-marker
characters by underscore, then appending the kind suffix (`-async` for
Async and Sync, `-worker` for Worker) and the `.js` extension; in
particular id `./foo/bar.tsx` with kind Async yields
`foo_bar_tsx-async.js`. -/
theorem async_filename_from_path_segments :
    (∀ (c : Chunk) (parsed : FileRequest),
      parse_path c.id.id = some parsed → parsed.query = [] →
      ((c.chunk_type = ChunkType.Async ∨ c.chunk_type = ChunkType.Sync →
          c.filename = some (specPathName parsed.path ++ "-async.js".toList)) ∧
        (∀ w, c.chunk_type = ChunkType.Worker w →
          c.filename = some (specPathName parsed.path ++ "-worker.js".toList)))) ∧
    (Chunk.new ⟨"./foo/bar.tsx".toList⟩ ChunkType.Async).filename =
      some ("foo_bar_tsx-async.js".toList) := by
  have hasync : ∀ t : Str,
      t ++ "-".toList ++ (if false then "worker".toList else "async".toList)
        ++ ".js".toList = t ++ "-async.js".toList := by
    intro t
    simp only [List.append_assoc]
    congr 1
  have hworker : ∀ t : Str,
      t ++ "-".toList ++ (if true then "worker".toList else "async".toList)
        ++ ".js".toList = t ++ "-worker.js".toList := by
    intro t
    simp only [List.append_assoc]
    congr 1
  constructor
  · intro c parsed hp hq
    constructor
    · intro hct
      have harm : c.filename = asyncStyleFilename c.id false := by
        rcases hct with h | h <;> simp [Chunk.filename, h, ChunkType.isWorker]
      rw [harm, asyncStyleFilename_no_query c.id parsed false hp hq, hasync]
    · intro w h
      have harm : c.filename = asyncStyleFilename c.id true := by
        simp [Chunk.filename, h, ChunkType.isWorker]
      rw [harm, asyncStyleFilename_no_query c.id parsed true hp hq, hworker]
  · decide

/-- Witness for C6 at a concrete Sync chunk. -/
theorem async_filename_from_path_segments_witness :
    parse_path (("a/b.ts".toList : Str)) = some ⟨"a/b.ts".toList, []⟩ ∧
    (Chunk.new ⟨"a/b.ts".toList⟩ ChunkType.Sync).filename =
      some (specPathName ("a/b.ts".toList) ++ "-async.js".toList) :=
  ⟨by decide,
    (async_filename_from_path_segments.1
      (Chunk.new ⟨"a/b.ts".toList⟩ ChunkType.Sync) ⟨"a/b.ts".toList, []⟩
      (by decide) rfl).1 (Or.inr rfl)⟩

/-! ### Claim theorems: filename charset -/

/-- The claim's filesystem-safe characters: alphanumerics, underscore,
hyphen. -/
def safeChar (c : Char) : Bool :=
  c.isAlphanum || c == '_' || c == '-'

/-- The characters a path portion may contain for the charset contract to
hold: safe characters plus dot (replaced by underscore inside segments)
and the separator. -/
def pathSafeChar (c : Char) : Bool :=
  safeChar c || c == '.' || c == '/'

/-- The claim's charset contract on an output filename: only safe
characters and a single extension-separating dot. -/
def filenameCharsetOK (f : Str) : Bool :=
  f.all (fun ch => safeChar ch || ch == '.') && f.count '.' == 1

/-- Characters of a piece of a split come from the input and are never the
separator. -/
theorem mem_of_mem_splitOnChar {sep : Char} :
    ∀ {s piece : Str} {ch : Char},
      piece ∈ splitOnChar sep s → ch ∈ piece → ch ∈ s ∧ ch ≠ sep := by
  intro s
  induction s with
  | nil =>
    intro piece ch hp hc
    simp [splitOnChar] at hp
    subst hp
    cases hc
  | cons c cs ih =>
    intro piece ch hp hc
    simp only [splitOnChar] at hp
    cases hr : splitOnChar sep cs with
    | nil => exact absurd hr (splitOnChar_ne_nil _ _)
    | cons h t =>
      simp only [hr] at hp
      by_cases hcs : c = sep
      · rw [if_pos hcs] at hp
        rcases List.mem_cons.1 hp with rfl | hp2
        · cases hc
        · have hin : piece ∈ splitOnChar sep cs := by rw [hr]; exact hp2
          obtain ⟨hm, hn⟩ := ih hin hc
          exact ⟨List.mem_cons_of_mem _ hm, hn⟩
      · rw [if_neg hcs] at hp
        rcases List.mem_cons.1 hp with rfl | hp2
        · rcases List.mem_cons.1 hc with rfl | hc2
          · exact ⟨List.mem_cons_self _ _, hcs⟩
          · have hin : h ∈ splitOnChar sep cs := by
              rw [hr]; exact List.mem_cons_self _ _
            obtain ⟨hm, hn⟩ := ih hin hc2
            exact ⟨List.mem_cons_of_mem _ hm, hn⟩
        · have hin : piece ∈ splitOnChar sep cs := by
            rw [hr]; exact List.mem_cons_of_mem _ hp2
          obtain ⟨hm, hn⟩ := ih hin hc
          exact ⟨List.mem_cons_of_mem _ hm, hn⟩

/-- A `Normal` component's segment is one of the split pieces. -/
theorem normal_mem_pathComponentsAux :
    ∀ {pieces : List Str} {seg : Str} {flag : Bool},
      Component.Normal seg ∈ pathComponentsAux flag pieces → seg ∈ pieces := by
  intro pieces
  induction pieces with
  | nil => intro seg flag h; cases h
  | cons p rest ih =>
    intro seg flag h
    simp only [pathComponentsAux] at h
    by_cases h1 : p = []
    · rw [if_pos h1] at h
      exact List.mem_cons_of_mem _ (ih h)
    · rw [if_neg h1] at h
      by_cases h2 : p = ['.']
      · rw [if_pos h2] at h
        cases flag with
        | true =>
          rw [if_pos rfl] at h
          rcases List.mem_cons.1 h with hne | h3
          · cases hne
          · exact List.mem_cons_of_mem _ (ih h3)
        | false =>
          rw [if_neg Bool.false_ne_true] at h
          exact List.mem_cons_of_mem _ (ih h)
      · rw [if_neg h2] at h
        by_cases h3 : p = ['.', '.']
        · rw [if_pos h3] at h
          rcases List.mem_cons.1 h with hne | h4
          · cases hne
          · exact List.mem_cons_of_mem _ (ih h4)
        · rw [if_neg h3] at h
          rcases List.mem_cons.1 h with heq | h4
          · cases heq
            exact List.mem_cons_self _ _
          · exact List.mem_cons_of_mem _ (ih h4)

/-- A `Normal` component of a path comes from one of the pieces of the
path split at `/`. -/
theorem normal_mem_pathComponents {s seg : Str}
    (h : Component.Normal seg ∈ pathComponents s) :
    seg ∈ splitOnChar '/' s := by
  cases s with
  | nil => cases h
  | cons c cs =>
    simp only [pathComponents] at h
    by_cases hc : c = '/'
    · rw [if_pos hc] at h
      rcases List.mem_cons.1 h with hne | h2
      · cases hne
      · exact normal_mem_pathComponentsAux h2
    · rw [if_neg hc] at h
      exact normal_mem_pathComponentsAux h

/-- The components surviving the root/current-dir filter are parent-dir
components or normal segments of the split. -/
theorem mem_filter_components {s : Str} {comp : Component}
    (h : comp ∈ (pathComponents s).filter (fun x => ! x.isRootOrCur)) :
    comp = Component.ParentDir ∨
      ∃ seg, comp = Component.Normal seg ∧ seg ∈ splitOnChar '/' s := by
  have hmem := List.mem_of_mem_filter h
  have hkeep := List.of_mem_filter h
  cases comp with
  | RootDir => simp [isRootOrCur_RootDir] at hkeep
  | CurDir => simp [isRootOrCur_CurDir] at hkeep
  | ParentDir => exact Or.inl rfl
  | Normal seg => exact Or.inr ⟨seg, rfl, normal_mem_pathComponents hmem⟩

/-- Characters of a joined list come from the separator or from one of the
pieces. -/
theorem mem_joinWith {sep : Str} :
    ∀ {xs : List Str} {ch : Char},
      ch ∈ joinWith sep xs → ch ∈ sep ∨ ∃ x ∈ xs, ch ∈ x := by
  intro xs
  induction xs with
  | nil => intro ch h; cases h
  | cons a rest ih =>
    intro ch h
    cases rest with
    | nil => exact Or.inr ⟨a, List.mem_cons_self _ _, h⟩
    | cons b t =>
      simp only [joinWith] at h
      rcases List.mem_append.1 h with h1 | h1
      · rcases List.mem_append.1 h1 with h2 | h2
        · exact Or.inr ⟨a, List.mem_cons_self _ _, h2⟩
        · exact Or.inl h2
      · rcases ih h1 with h2 | ⟨x, hx, hchx⟩
        · exact Or.inl h2
        · exact Or.inr ⟨x, List.mem_cons_of_mem _ hx, hchx⟩

/-- Characters after the dot/query-marker replacement are underscores or
non-dot, non-query-marker characters of the segment. -/
theorem mem_replaceDotQ {seg : Str} {ch : Char} (h : ch ∈ replaceDotQ seg) :
    ch = '_' ∨ (ch ∈ seg ∧ ¬ ch = '.' ∧ ¬ ch = '?') := by
  simp only [replaceDotQ, List.mem_map] at h
  obtain ⟨x, hx, hfx⟩ := h
  by_cases hxd : x = '.' ∨ x = '?'
  · rw [if_pos hxd] at hfx
    exact Or.inl hfx.symm
  · rw [if_neg hxd] at hfx
    subst hfx
    exact Or.inr ⟨hx, fun hd => hxd (Or.inl hd), fun hq => hxd (Or.inr hq)⟩

/-- `getD` from a list of safe characters with a safe default is safe. -/
theorem getD_safe :
    ∀ (l : Str) (n : Nat) (d : Char), (∀ c ∈ l, safeChar c = true) →
      safeChar d = true → safeChar (l.getD n d) = true := by
  intro l
  induction l with
  | nil => intro n d _ hd; simpa [List.getD] using hd
  | cons a t ih =>
    intro n d hl hd
    cases n with
    | zero => simpa [List.getD] using hl a (List.mem_cons_self _ _)
    | succ m =>
      have := ih m d (fun c hc => hl c (List.mem_cons_of_mem _ hc)) hd
      simpa [List.getD] using this

/-- Every character of the URL-safe base64 alphabet lookup is safe. -/
theorem b64Char_safe (n : Nat) : safeChar (b64Char n) = true :=
  getD_safe base64UrlAlphabet n 'A' (by decide) (by decide)

/-- The MD5 digest starts with at least three bytes. -/
theorem md5_shape (msg : List Nat) :
    ∃ b1 b2 b3 rest, md5 msg = b1 :: b2 :: b3 :: rest := by
  rcases hfold : (chunksOf1 63 (md5Pad msg)).foldl
      (fun st block => md5ProcessBlock st ((chunksOf1 3 block).map bytesToNatLE))
      md5Init with ⟨a, b, c, d⟩
  refine ⟨a % 256, a / 256 % 256, a / 65536 % 256,
    a / 16777216 % 256 :: (u32LEBytes b ++ u32LEBytes c ++ u32LEBytes d), ?_⟩
  unfold md5
  rw [hfold]
  simp [u32LEBytes]

/-- The first four characters of a base64 encoding of at least three bytes
are alphabet characters, hence safe. -/
theorem base64_take4_safe {b1 b2 b3 : Nat} {rest : List Nat} {ch : Char}
    (h : ch ∈ (base64UrlEncode (b1 :: b2 :: b3 :: rest)).take 4) :
    safeChar ch = true := by
  have ht : (base64UrlEncode (b1 :: b2 :: b3 :: rest)).take 4 =
      [b64Char ((b1 * 65536 + b2 * 256 + b3) / 262144 % 64),
       b64Char ((b1 * 65536 + b2 * 256 + b3) / 4096 % 64),
       b64Char ((b1 * 65536 + b2 * 256 + b3) / 64 % 64),
       b64Char ((b1 * 65536 + b2 * 256 + b3) % 64)] := rfl
  rw [ht] at h
  simp only [List.mem_cons, List.not_mem_nil, or_false] at h
  rcases h with rfl | rfl | rfl | rfl <;> exact b64Char_safe _

/-- Every character of a `_q_` suffix hash is safe. -/
theorem querySuffix4_safe {q : Str} {ch : Char} (h : ch ∈ querySuffix4 q) :
    safeChar ch = true := by
  obtain ⟨b1, b2, b3, rest, hmd⟩ := md5_shape (utf8Bytes q)
  rw [querySuffix4, hmd] at h
  exact base64_take4_safe h

/-- The suffix hash has exactly four characters. -/
theorem querySuffix4_length (q : Str) : (querySuffix4 q).length = 4 := by
  obtain ⟨b1, b2, b3, rest, hmd⟩ := md5_shape (utf8Bytes q)
  rw [querySuffix4, hmd]
  simp [base64UrlEncode]

/-- A string of safe characters does not contain a dot. -/
theorem not_dot_mem_of_safe {l : Str} (h : ∀ ch ∈ l, safeChar ch = true) :
    '.' ∉ l :=
  fun hm => absurd (h '.' hm) (by decide)

/-- Every character of the path-derived (pre-suffix) name is safe when the
path has safe characters and no parent-dir segments. -/
theorem joined_name_safe {path : Str}
    (hpath : ∀ ch ∈ path, pathSafeChar ch = true)
    (hnp : Component.ParentDir ∉ pathComponents path) :
    ∀ ch ∈ joinWith ("_".toList)
        (((pathComponents path).filter (fun comp => ! comp.isRootOrCur)).map
          componentToSeg),
      safeChar ch = true := by
  intro ch hch
  rcases mem_joinWith hch with hsep | ⟨x, hx, hchx⟩
  · have : ch = '_' := by simpa using hsep
    subst this
    decide
  · obtain ⟨comp, hcomp, hcx⟩ := List.mem_map.1 hx
    rcases mem_filter_components hcomp with rfl | ⟨seg, rfl, hseg⟩
    · exact absurd (List.mem_of_mem_filter hcomp) hnp
    · subst hcx
      rcases mem_replaceDotQ hchx with rfl | ⟨hin, hnd, hnq⟩
      · decide
      · obtain ⟨hmem, hsl⟩ := mem_of_mem_splitOnChar hseg hin
        have hps := hpath ch hmem
        simp only [pathSafeChar, Bool.or_eq_true, beq_iff_eq] at hps
        rcases hps with (hs | hd) | hs
        · exact hs
        · exact absurd hd hnd
        · exact absurd hs hsl

/-- The charset conclusion for the `Async | Sync | Worker` filename arm
under the safe-path precondition. -/
theorem asyncStyleFilename_charset (id : ModuleId) (w : Bool)
    (parsed : FileRequest) (hp : parse_path id.id = some parsed)
    (hpath : ∀ ch ∈ parsed.path, pathSafeChar ch = true)
    (hnp : Component.ParentDir ∉ pathComponents parsed.path) :
    ∃ f, asyncStyleFilename id w = some f ∧
      (∀ ch ∈ f, safeChar ch = true ∨ ch = '.') ∧ f.count '.' = 1 := by
  have hname := joined_name_safe hpath hnp
  have hkind : ∀ ch ∈ (if w then "worker".toList else "async".toList),
      safeChar ch = true := by
    cases w <;> decide
  have hkindcount : List.count '.' (if w then "worker".toList else "async".toList)
      = 0 := by
    cases w <;> decide
  simp only [asyncStyleFilename, hp]
  by_cases hq : serializeQuery parsed.query = []
  · rw [if_pos hq]
    refine ⟨_, rfl, ?_, ?_⟩
    · intro ch hch
      rcases List.mem_append.1 hch with hch | hch
      · rcases List.mem_append.1 hch with hch | hch
        · rcases List.mem_append.1 hch with hch | hch
          · exact Or.inl (hname ch hch)
          · have : ch = '-' := by simpa using hch
            subst this
            exact Or.inl (by decide)
        · exact Or.inl (hkind ch hch)
      · have : ch = '.' ∨ ch = 'j' ∨ ch = 's' := by simpa using hch
        rcases this with rfl | rfl | rfl
        · exact Or.inr rfl
        · exact Or.inl (by decide)
        · exact Or.inl (by decide)
    · simp only [List.count_append]
      rw [List.count_eq_zero.2 (not_dot_mem_of_safe hname), hkindcount]
      decide
  · rw [if_neg hq]
    refine ⟨_, rfl, ?_, ?_⟩
    · intro ch hch
      rcases List.mem_append.1 hch with hch | hch
      · rcases List.mem_append.1 hch with hch | hch
        · rcases List.mem_append.1 hch with hch | hch
          · rcases List.mem_append.1 hch with hch | hch
            · rcases List.mem_append.1 hch with hch | hch
              · exact Or.inl (hname ch hch)
              · have : ch = '_' ∨ ch = 'q' := by
                  have h3 : ch ∈ ("_q_".toList : Str) := hch
                  rcases h3 with _ | ⟨_, h4⟩
                  · exact Or.inl rfl
                  · rcases h4 with _ | ⟨_, h5⟩
                    · exact Or.inr rfl
                    · rcases h5 with _ | ⟨_, h6⟩
                      · exact Or.inl rfl
                      · cases h6
                rcases this with rfl | rfl
                · exact Or.inl (by decide)
                · exact Or.inl (by decide)
            · exact Or.inl (querySuffix4_safe hch)
          · have : ch = '-' := by simpa using hch
            subst this
            exact Or.inl (by decide)
        · exact Or.inl (hkind ch hch)
      · have : ch = '.' ∨ ch = 'j' ∨ ch = 's' := by simpa using hch
        rcases this with rfl | rfl | rfl
        · exact Or.inr rfl
        · exact Or.inl (by decide)
        · exact Or.inl (by decide)
    · simp only [List.count_append]
      rw [List.count_eq_zero.2 (not_dot_mem_of_safe hname), hkindcount,
        List.count_eq_zero.2 (not_dot_mem_of_safe
          (fun ch hch => querySuffix4_safe hch))]
      decide

/-- The inputs under which the charset contract actually holds: any
Runtime chunk; an Entry chunk whose entry name has only safe characters;
an Async/Sync/Worker chunk whose id's path portion has only safe
characters, dots and separators, and no parent-dir segments. -/
def charsetPrecondB (c : Chunk) : Bool :=
  match c.chunk_type with
  | ChunkType.Runtime => true
  | ChunkType.Entry _ name _ => name.all safeChar
  | _ =>
    match parse_path c.id.id with
    | none => false
    | some parsed =>
      parsed.path.all pathSafeChar &&
        ! (pathComponents parsed.path).contains Component.ParentDir

/-- Counterexample to claim C4 as stated: an Entry chunk with a dotted
entry name produces `a.b.js` (two dots), and an Async chunk whose id has a
parent-dir segment produces the unsafe sentinel `@` in `@_x-async.js`. -/
theorem filename_charset_counterexample :
    ((Chunk.mk ⟨"e".toList⟩ (ChunkType.Entry ⟨"e".toList⟩ ("a.b".toList) false)
        [] none none).filename = some ("a.b.js".toList) ∧
      filenameCharsetOK ("a.b.js".toList) = false) ∧
    ((Chunk.new ⟨"../x".toList⟩ ChunkType.Async).filename =
        some ("@_x-async.js".toList) ∧
      filenameCharsetOK ("@_x-async.js".toList) = false) := by
  decide

/-- Claim C4 (amended): for every Runtime chunk, every Entry chunk whose
entry name consists of safe characters, and every Async/Sync/Worker chunk
whose id path consists of safe characters, dots and separators with no
parent-dir segments, the filename contains only alphanumerics, underscore,
hyphen, and a single extension-separating dot. -/
theorem filename_charset_for_safe_inputs (c : Chunk)
    (h : charsetPrecondB c = true) :
    ∃ f, c.filename = some f ∧
      (∀ ch ∈ f, safeChar ch = true ∨ ch = '.') ∧ f.count '.' = 1 := by
  cases hct : c.chunk_type with
  | Runtime =>
    refine ⟨"runtime.js".toList, by simp [Chunk.filename, hct], by decide, by decide⟩
  | Entry eid name flag =>
    rw [charsetPrecondB, hct] at h
    have hall := List.all_eq_true.1 h
    refine ⟨name ++ ".js".toList, by simp [Chunk.filename, hct], ?_, ?_⟩
    · intro ch hch
      rcases List.mem_append.1 hch with hch | hch
      · exact Or.inl (hall ch hch)
      · have : ch = '.' ∨ ch = 'j' ∨ ch = 's' := by simpa using hch
        rcases this with rfl | rfl | rfl
        · exact Or.inr rfl
        · exact Or.inl (by decide)
        · exact Or.inl (by decide)
    · rw [List.count_append,
        List.count_eq_zero.2 (not_dot_mem_of_safe hall)]
      decide
  | Async =>
    rw [charsetPrecondB, hct] at h
    cases hp : parse_path c.id.id with
    | none => rw [hp] at h; cases h
    | some parsed =>
      rw [hp, Bool.and_eq_true] at h
      obtain ⟨hpa, hnp⟩ := h
      have hfn : c.filename = asyncStyleFilename c.id false := by
        simp [Chunk.filename, hct, ChunkType.isWorker]
      rw [hfn]
      exact asyncStyleFilename_charset c.id false parsed hp
        (List.all_eq_true.1 hpa) (by simpa using hnp)
  | Sync =>
    rw [charsetPrecondB, hct] at h
    cases hp : parse_path c.id.id with
    | none => rw [hp] at h; cases h
    | some parsed =>
      rw [hp, Bool.and_eq_true] at h
      obtain ⟨hpa, hnp⟩ := h
      have hfn : c.filename = asyncStyleFilename c.id false := by
        simp [Chunk.filename, hct, ChunkType.isWorker]
      rw [hfn]
      exact asyncStyleFilename_charset c.id false parsed hp
        (List.all_eq_true.1 hpa) (by simpa using hnp)
  | Worker wid =>
    rw [charsetPrecondB, hct] at h
    cases hp : parse_path c.id.id with
    | none => rw [hp] at h; cases h
    | some parsed =>
      rw [hp, Bool.and_eq_true] at h
      obtain ⟨hpa, hnp⟩ := h
      have hfn : c.filename = asyncStyleFilename c.id true := by
        simp [Chunk.filename, hct, ChunkType.isWorker]
      rw [hfn]
      exact asyncStyleFilename_charset c.id true parsed hp
        (List.all_eq_true.1 hpa) (by simpa using hnp)

/-- Witness for the amended C4 at a concrete Async chunk with a query. -/
theorem filename_charset_for_safe_inputs_witness :
    charsetPrecondB (Chunk.new ⟨"./foo/bar.tsx?a=1".toList⟩ ChunkType.Async)
        = true ∧
    (∃ f, (Chunk.new ⟨"./foo/bar.tsx?a=1".toList⟩ ChunkType.Async).filename
        = some f ∧
      (∀ ch ∈ f, safeChar ch = true ∨ ch = '.') ∧ f.count '.' = 1) :=
  ⟨by decide,
    filename_charset_for_safe_inputs
      (Chunk.new ⟨"./foo/bar.tsx?a=1".toList⟩ ChunkType.Async) (by decide)⟩

/-! ### Claim theorems: query-hash filename disambiguation -/

/-- The path-derived filename depends on the id only through its parse. -/
theorem asyncStyleFilename_congr {id1 id2 : ModuleId} (w : Bool)
    (h : parse_path id1.id = parse_path id2.id) :
    asyncStyleFilename id1 w = asyncStyleFilename id2 w := by
  unfold asyncStyleFilename
  rw [h]

/-- For the path-derived kinds, `filename` is the shared arm applied to
the id and the worker flag. -/
theorem filename_asyncStyle {c : Chunk} (h : c.chunk_type.isAsyncStyle = true) :
    c.filename = asyncStyleFilename c.id c.chunk_type.isWorker := by
  cases hct : c.chunk_type with
  | Runtime => rw [hct] at h; simp [ChunkType.isAsyncStyle] at h
  | Entry a b f => rw [hct] at h; simp [ChunkType.isAsyncStyle] at h
  | Async => simp [Chunk.filename, hct]
  | Sync => simp [Chunk.filename, hct]
  | Worker wid => simp [Chunk.filename, hct]

/-- Counterexample to claim C5 as stated: the ids `p?a` and `p?a=` share
the logical path `p` and differ only in their query portion, yet both
parse to the query pair `a=` and therefore receive the same filename. -/
theorem filename_query_collision_counterexample :
    ((⟨"p?a".toList⟩ : ModuleId) ≠ ⟨"p?a=".toList⟩) ∧
    (parse_path ("p?a".toList) = some ⟨"p".toList, [("a".toList, [])]⟩ ∧
      parse_path ("p?a=".toList) = some ⟨"p".toList, [("a".toList, [])]⟩) ∧
    (Chunk.new ⟨"p?a".toList⟩ ChunkType.Async).filename =
      (Chunk.new ⟨"p?a=".toList⟩ ChunkType.Async).filename := by
  refine ⟨by decide, ⟨by decide, by decide⟩, ?_⟩
  rw [filename_asyncStyle (by decide), filename_asyncStyle (by decide)]
  exact asyncStyleFilename_congr _ (by decide)

/-- Claim C5 (amended): two Async/Sync/Worker chunks of like worker-ness
whose ids parse to the same logical path receive different filenames
whenever their serialized `key=value&…` queries are nonempty and have
distinct truncated digests (`_q_` plus the first four characters of the
URL-safe base64 MD5); distinctness is keyed to the parsed query
serialization and its 24-bit truncated digest, not to the raw query
text. -/
theorem filename_distinct_for_distinct_query_digests (c1 c2 : Chunk)
    (p1 p2 : FileRequest)
    (hs1 : c1.chunk_type.isAsyncStyle = true)
    (hs2 : c2.chunk_type.isAsyncStyle = true)
    (hw : c1.chunk_type.isWorker = c2.chunk_type.isWorker)
    (hp1 : parse_path c1.id.id = some p1)
    (hp2 : parse_path c2.id.id = some p2)
    (hpath : p1.path = p2.path)
    (hq1 : serializeQuery p1.query ≠ [])
    (hq2 : serializeQuery p2.query ≠ [])
    (hsuf : querySuffix4 (serializeQuery p1.query) ≠
      querySuffix4 (serializeQuery p2.query)) :
    c1.filename ≠ c2.filename := by
  intro hcontra
  rw [filename_asyncStyle hs1, filename_asyncStyle hs2, hw] at hcontra
  simp only [asyncStyleFilename, hp1, hp2] at hcontra
  rw [hpath] at hcontra
  rw [if_neg hq1, if_neg hq2] at hcontra
  have h1 : _ = _ := Option.some.inj hcontra
  simp only [List.append_assoc] at h1
  have h2 := List.append_inj_right h1 rfl
  have h3 := List.append_inj_right h2 rfl
  have h4 := (List.append_inj' h3 rfl).1
  exact hsuf h4

/-- Splitting a run of MD5 rounds. -/
theorem md5LoopFrom_add (m : List Nat) (i n k : Nat) (st : Nat × Nat × Nat × Nat) :
    md5LoopFrom m i (n + k) st = md5LoopFrom m (i + n) k (md5LoopFrom m i n st) := by
  induction n generalizing i st with
  | zero => simp [md5LoopFrom]
  | succ n ih =>
    have h1 : n + 1 + k = (n + k) + 1 := by omega
    have h2 : i + (n + 1) = (i + 1) + n := by omega
    rw [h1, h2]
    show md5LoopFrom m (i + 1) (n + k) (md5Step m st i) = _
    rw [ih]
    rfl

/-- Staged evaluation of the MD5 digest of `a=1` (the 64 rounds are
evaluated four at a time to keep kernel reduction shallow). -/
theorem md5_digest_a1 : md5 (utf8Bytes ("a=1".toList)) = [56, 114, 201, 174, 63, 66, 122, 240, 190, 14, 173, 9, 208, 122, 226, 207] := by
  have hbytes : utf8Bytes ("a=1".toList) = [97, 61, 49] := by decide
  have hblocks : chunksOf1 63 (md5Pad [97, 61, 49]) = [[97, 61, 49, 128, 0, 0, 0, 0, 0, 0, 0, 0, 0, 0, 0, 0, 0, 0, 0, 0, 0, 0, 0, 0, 0, 0, 0, 0, 0, 0, 0, 0, 0, 0, 0, 0, 0, 0, 0, 0, 0, 0, 0, 0, 0, 0, 0, 0, 0, 0, 0, 0, 0, 0, 0, 0, 24, 0, 0, 0, 0, 0, 0, 0]] := by decide
  have hwords : (chunksOf1 3 ([97, 61, 49, 128, 0, 0, 0, 0, 0, 0, 0, 0, 0, 0, 0, 0, 0, 0, 0, 0, 0, 0, 0, 0, 0, 0, 0, 0, 0, 0, 0, 0, 0, 0, 0, 0, 0, 0, 0, 0, 0, 0, 0, 0, 0, 0, 0, 0, 0, 0, 0, 0, 0, 0, 0, 0, 24, 0, 0, 0, 0, 0, 0, 0] : List Nat)).map bytesToNatLE = [2150710625, 0, 0, 0, 0, 0, 0, 0, 0, 0, 0, 0, 0, 0, 24, 0] := by decide
  have hloop : md5LoopFrom [2150710625, 0, 0, 0, 0, 0, 0, 0, 0, 0, 0, 0, 0, 0, 24, 0] 0 64 md5Init = (1199853367, 11310774, 1894920640, 3215992410) := by
    have s1 : md5LoopFrom [2150710625, 0, 0, 0, 0, 0, 0, 0, 0, 0, 0, 0, 0, 0, 24, 0] 0 4 md5Init = (3183384500, 1257023820, 504715213, 725090844) := by decide
    have s2 : md5LoopFrom [2150710625, 0, 0, 0, 0, 0, 0, 0, 0, 0, 0, 0, 0, 0, 24, 0] 4 4 (3183384500, 1257023820, 504715213, 725090844) = (1916930363, 3921515594, 311645876, 3301127500) := by decide
    have s3 : md5LoopFrom [2150710625, 0, 0, 0, 0, 0, 0, 0, 0, 0, 0, 0, 0, 0, 24, 0] 8 4 (1916930363, 3921515594, 311645876, 3301127500) = (883499066, 598153448, 302065669, 1826731878) := by decide
    have s4 : md5LoopFrom [2150710625, 0, 0, 0, 0, 0, 0, 0, 0, 0, 0, 0, 0, 0, 24, 0] 12 4 (883499066, 598153448, 302065669, 1826731878) = (1628916319, 3749214674, 4282357818, 1982555191) := by decide
    have s5 : md5LoopFrom [2150710625, 0, 0, 0, 0, 0, 0, 0, 0, 0, 0, 0, 0, 0, 24, 0] 16 4 (1628916319, 3749214674, 4282357818, 1982555191) = (2915398968, 3733539382, 3803818653, 282612991) := by decide
    have s6 : md5LoopFrom [2150710625, 0, 0, 0, 0, 0, 0, 0, 0, 0, 0, 0, 0, 0, 24, 0] 20 4 (2915398968, 3733539382, 3803818653, 282612991) = (2992063396, 2258687151, 2992140116, 229586246) := by decide
    have s7 : md5LoopFrom [2150710625, 0, 0, 0, 0, 0, 0, 0, 0, 0, 0, 0, 0, 0, 24, 0] 24 4 (2992063396, 2258687151, 2992140116, 229586246) = (3956197568, 86045564, 1819126773, 2314930095) := by decide
    have s8 : md5LoopFrom [2150710625, 0, 0, 0, 0, 0, 0, 0, 0, 0, 0, 0, 0, 0, 24, 0] 28 4 (3956197568, 86045564, 1819126773, 2314930095) = (1611439035, 2308686260, 2435951556, 1327193482) := by decide
    have s9 : md5LoopFrom [2150710625, 0, 0, 0, 0, 0, 0, 0, 0, 0, 0, 0, 0, 0, 24, 0] 32 4 (1611439035, 2308686260, 2435951556, 1327193482) = (85758255, 2146661666, 3972567728, 664266961) := by decide
    have s10 : md5LoopFrom [2150710625, 0, 0, 0, 0, 0, 0, 0, 0, 0, 0, 0, 0, 0, 24, 0] 36 4 (85758255, 2146661666, 3972567728, 664266961) = (1751916679, 1393496072, 2295417720, 3697843197) := by decide
    have s11 : md5LoopFrom [2150710625, 0, 0, 0, 0, 0, 0, 0, 0, 0, 0, 0, 0, 0, 24, 0] 40 4 (1751916679, 1393496072, 2295417720, 3697843197) = (3740601777, 2598022590, 1398854180, 297130004) := by decide
    have s12 : md5LoopFrom [2150710625, 0, 0, 0, 0, 0, 0, 0, 0, 0, 0, 0, 0, 0, 24, 0] 44 4 (3740601777, 2598022590, 1398854180, 297130004) = (2826110279, 3666508400, 3755374732, 2144974873) := by decide
    have s13 : md5LoopFrom [2150710625, 0, 0, 0, 0, 0, 0, 0, 0, 0, 0, 0, 0, 0, 24, 0] 48 4 (2826110279, 3666508400, 3755374732, 2144974873) = (1810207736, 1303645629, 2008805835, 511345097) := by decide
    have s14 : md5LoopFrom [2150710625, 0, 0, 0, 0, 0, 0, 0, 0, 0, 0, 0, 0, 0, 24, 0] 52 4 (1810207736, 1303645629, 2008805835, 511345097) = (563288471, 3080605009, 828201242, 3407130590) := by decide
    have s15 : md5LoopFrom [2150710625, 0, 0, 0, 0, 0, 0, 0, 0, 0, 0, 0, 0, 0, 24, 0] 56 4 (563288471, 3080605009, 828201242, 3407130590) = (2936365462, 2689943898, 867603969, 2617963035) := by decide
    have s16 : md5LoopFrom [2150710625, 0, 0, 0, 0, 0, 0, 0, 0, 0, 0, 0, 0, 0, 24, 0] 60 4 (2936365462, 2689943898, 867603969, 2617963035) = (1199853367, 11310774, 1894920640, 3215992410) := by decide
    have a1 := md5LoopFrom_add [2150710625, 0, 0, 0, 0, 0, 0, 0, 0, 0, 0, 0, 0, 0, 24, 0] 0 4 60 md5Init
    norm_num at a1
    rw [a1, s1]
    have a2 := md5LoopFrom_add [2150710625, 0, 0, 0, 0, 0, 0, 0, 0, 0, 0, 0, 0, 0, 24, 0] 4 4 56 (3183384500, 1257023820, 504715213, 725090844)
    norm_num at a2
    rw [a2, s2]
    have a3 := md5LoopFrom_add [2150710625, 0, 0, 0, 0, 0, 0, 0, 0, 0, 0, 0, 0, 0, 24, 0] 8 4 52 (1916930363, 3921515594, 311645876, 3301127500)
    norm_num at a3
    rw [a3, s3]
    have a4 := md5LoopFrom_add [2150710625, 0, 0, 0, 0, 0, 0, 0, 0, 0, 0, 0, 0, 0, 24, 0] 12 4 48 (883499066, 598153448, 302065669, 1826731878)
    norm_num at a4
    rw [a4, s4]
    have a5 := md5LoopFrom_add [2150710625, 0, 0, 0, 0, 0, 0, 0, 0, 0, 0, 0, 0, 0, 24, 0] 16 4 44 (1628916319, 3749214674, 4282357818, 1982555191)
    norm_num at a5
    rw [a5, s5]
    have a6 := md5LoopFrom_add [2150710625, 0, 0, 0, 0, 0, 0, 0, 0, 0, 0, 0, 0, 0, 24, 0] 20 4 40 (2915398968, 3733539382, 3803818653, 282612991)
    norm_num at a6
    rw [a6, s6]
    have a7 := md5LoopFrom_add [2150710625, 0, 0, 0, 0, 0, 0, 0, 0, 0, 0, 0, 0, 0, 24, 0] 24 4 36 (2992063396, 2258687151, 2992140116, 229586246)
    norm_num at a7
    rw [a7, s7]
    have a8 := md5LoopFrom_add [2150710625, 0, 0, 0, 0, 0, 0, 0, 0, 0, 0, 0, 0, 0, 24, 0] 28 4 32 (3956197568, 86045564, 1819126773, 2314930095)
    norm_num at a8
    rw [a8, s8]
    have a9 := md5LoopFrom_add [2150710625, 0, 0, 0, 0, 0, 0, 0, 0, 0, 0, 0, 0, 0, 24, 0] 32 4 28 (1611439035, 2308686260, 2435951556, 1327193482)
    norm_num at a9
    rw [a9, s9]
    have a10 := md5LoopFrom_add [2150710625, 0, 0, 0, 0, 0, 0, 0, 0, 0, 0, 0, 0, 0, 24, 0] 36 4 24 (85758255, 2146661666, 3972567728, 664266961)
    norm_num at a10
    rw [a10, s10]
    have a11 := md5LoopFrom_add [2150710625, 0, 0, 0, 0, 0, 0, 0, 0, 0, 0, 0, 0, 0, 24, 0] 40 4 20 (1751916679, 1393496072, 2295417720, 3697843197)
    norm_num at a11
    rw [a11, s11]
    have a12 := md5LoopFrom_add [2150710625, 0, 0, 0, 0, 0, 0, 0, 0, 0, 0, 0, 0, 0, 24, 0] 44 4 16 (3740601777, 2598022590, 1398854180, 297130004)
    norm_num at a12
    rw [a12, s12]
    have a13 := md5LoopFrom_add [2150710625, 0, 0, 0, 0, 0, 0, 0, 0, 0, 0, 0, 0, 0, 24, 0] 48 4 12 (2826110279, 3666508400, 3755374732, 2144974873)
    norm_num at a13
    rw [a13, s13]
    have a14 := md5LoopFrom_add [2150710625, 0, 0, 0, 0, 0, 0, 0, 0, 0, 0, 0, 0, 0, 24, 0] 52 4 8 (1810207736, 1303645629, 2008805835, 511345097)
    norm_num at a14
    rw [a14, s14]
    have a15 := md5LoopFrom_add [2150710625, 0, 0, 0, 0, 0, 0, 0, 0, 0, 0, 0, 0, 0, 24, 0] 56 4 4 (563288471, 3080605009, 828201242, 3407130590)
    norm_num at a15
    rw [a15, s15]
    exact s16
  have hpb : md5ProcessBlock md5Init [2150710625, 0, 0, 0, 0, 0, 0, 0, 0, 0, 0, 0, 0, 0, 24, 0] = (2932437560, 4034544191, 162336446, 3487726288) := by
    unfold md5ProcessBlock
    rw [hloop]
    decide
  unfold md5
  rw [hbytes, hblocks]
  simp only [List.foldl]
  rw [hwords, hpb]
  decide

/-- The `_q_` suffix for query `a=1`. -/
theorem querySuffix4_a1 : querySuffix4 ("a=1".toList) = "OHLJ".toList := by
  rw [querySuffix4, md5_digest_a1]
  decide

/-- Staged evaluation of the MD5 digest of `a=2` (the 64 rounds are
evaluated four at a time to keep kernel reduction shallow). -/
theorem md5_digest_a2 : md5 (utf8Bytes ("a=2".toList)) = [131, 168, 138, 177, 44, 243, 41, 110, 3, 29, 248, 73, 133, 115, 61, 51] := by
  have hbytes : utf8Bytes ("a=2".toList) = [97, 61, 50] := by decide
  have hblocks : chunksOf1 63 (md5Pad [97, 61, 50]) = [[97, 61, 50, 128, 0, 0, 0, 0, 0, 0, 0, 0, 0, 0, 0, 0, 0, 0, 0, 0, 0, 0, 0, 0, 0, 0, 0, 0, 0, 0, 0, 0, 0, 0, 0, 0, 0, 0, 0, 0, 0, 0, 0, 0, 0, 0, 0, 0, 0, 0, 0, 0, 0, 0, 0, 0, 24, 0, 0, 0, 0, 0, 0, 0]] := by decide
  have hwords : (chunksOf1 3 ([97, 61, 50, 128, 0, 0, 0, 0, 0, 0, 0, 0, 0, 0, 0, 0, 0, 0, 0, 0, 0, 0, 0, 0, 0, 0, 0, 0, 0, 0, 0, 0, 0, 0, 0, 0, 0, 0, 0, 0, 0, 0, 0, 0, 0, 0, 0, 0, 0, 0, 0, 0, 0, 0, 0, 0, 24, 0, 0, 0, 0, 0, 0, 0] : List Nat)).map bytesToNatLE = [2150776161, 0, 0, 0, 0, 0, 0, 0, 0, 0, 0, 0, 0, 0, 24, 0] := by decide
  have hloop : md5LoopFrom [2150776161, 0, 0, 0, 0, 0, 0, 0, 0, 0, 0, 0, 0, 0, 24, 0] 0 64 md5Init = (1246070146, 2119976867, 2973581317, 587931407) := by
    have s1 : md5LoopFrom [2150776161, 0, 0, 0, 0, 0, 0, 0, 0, 0, 0, 0, 0, 0, 24, 0] 0 4 md5Init = (3191773108, 2274126429, 515201245, 733479468) := by decide
    have s2 : md5LoopFrom [2150776161, 0, 0, 0, 0, 0, 0, 0, 0, 0, 0, 0, 0, 0, 24, 0] 4 4 (3191773108, 2274126429, 515201245, 733479468) = (3204733646, 3522746135, 1118328657, 271555197) := by decide
    have s3 : md5LoopFrom [2150776161, 0, 0, 0, 0, 0, 0, 0, 0, 0, 0, 0, 0, 0, 24, 0] 8 4 (3204733646, 3522746135, 1118328657, 271555197) = (1814193867, 3890364118, 2414918865, 985031852) := by decide
    have s4 : md5LoopFrom [2150776161, 0, 0, 0, 0, 0, 0, 0, 0, 0, 0, 0, 0, 0, 24, 0] 12 4 (1814193867, 3890364118, 2414918865, 985031852) = (3143414161, 3009212478, 287699780, 2894966675) := by decide
    have s5 : md5LoopFrom [2150776161, 0, 0, 0, 0, 0, 0, 0, 0, 0, 0, 0, 0, 0, 24, 0] 16 4 (3143414161, 3009212478, 287699780, 2894966675) = (139843946, 3842879438, 3530935152, 1623094152) := by decide
    have s6 : md5LoopFrom [2150776161, 0, 0, 0, 0, 0, 0, 0, 0, 0, 0, 0, 0, 0, 24, 0] 20 4 (139843946, 3842879438, 3530935152, 1623094152) = (4284508104, 3379540273, 1011817757, 3577723516) := by decide
    have s7 : md5LoopFrom [2150776161, 0, 0, 0, 0, 0, 0, 0, 0, 0, 0, 0, 0, 0, 24, 0] 24 4 (4284508104, 3379540273, 1011817757, 3577723516) = (531434770, 926579337, 1988240873, 1754022397) := by decide
    have s8 : md5LoopFrom [2150776161, 0, 0, 0, 0, 0, 0, 0, 0, 0, 0, 0, 0, 0, 24, 0] 28 4 (531434770, 926579337, 1988240873, 1754022397) = (715509416, 3302958891, 3230255138, 2469333434) := by decide
    have s9 : md5LoopFrom [2150776161, 0, 0, 0, 0, 0, 0, 0, 0, 0, 0, 0, 0, 0, 24, 0] 32 4 (715509416, 3302958891, 3230255138, 2469333434) = (3867021575, 1703560189, 3061162981, 913334509) := by decide
    have s10 : md5LoopFrom [2150776161, 0, 0, 0, 0, 0, 0, 0, 0, 0, 0, 0, 0, 0, 24, 0] 36 4 (3867021575, 1703560189, 3061162981, 913334509) = (1917978628, 1441001764, 490181411, 1528273187) := by decide
    have s11 : md5LoopFrom [2150776161, 0, 0, 0, 0, 0, 0, 0, 0, 0, 0, 0, 0, 0, 24, 0] 40 4 (1917978628, 1441001764, 490181411, 1528273187) = (1090261006, 2115223797, 1333594692, 3699396222) := by decide
    have s12 : md5LoopFrom [2150776161, 0, 0, 0, 0, 0, 0, 0, 0, 0, 0, 0, 0, 0, 24, 0] 44 4 (1090261006, 2115223797, 1333594692, 3699396222) = (168432213, 2019464886, 406594936, 269767243) := by decide
    have s13 : md5LoopFrom [2150776161, 0, 0, 0, 0, 0, 0, 0, 0, 0, 0, 0, 0, 0, 24, 0] 48 4 (168432213, 2019464886, 406594936, 269767243) = (44157135, 1154546647, 1916867855, 4112201882) := by decide
    have s14 : md5LoopFrom [2150776161, 0, 0, 0, 0, 0, 0, 0, 0, 0, 0, 0, 0, 0, 24, 0] 52 4 (44157135, 1154546647, 1916867855, 4112201882) = (1905548928, 3451731727, 1199778212, 3384650614) := by decide
    have s15 : md5LoopFrom [2150776161, 0, 0, 0, 0, 0, 0, 0, 0, 0, 0, 0, 0, 0, 24, 0] 56 4 (1905548928, 3451731727, 1199778212, 3384650614) = (1007287733, 1979825509, 895119244, 3914798747) := by decide
    have s16 : md5LoopFrom [2150776161, 0, 0, 0, 0, 0, 0, 0, 0, 0, 0, 0, 0, 0, 24, 0] 60 4 (1007287733, 1979825509, 895119244, 3914798747) = (1246070146, 2119976867, 2973581317, 587931407) := by decide
    have a1 := md5LoopFrom_add [2150776161, 0, 0, 0, 0, 0, 0, 0, 0, 0, 0, 0, 0, 0, 24, 0] 0 4 60 md5Init
    norm_num at a1
    rw [a1, s1]
    have a2 := md5LoopFrom_add [2150776161, 0, 0, 0, 0, 0, 0, 0, 0, 0, 0, 0, 0, 0, 24, 0] 4 4 56 (3191773108, 2274126429, 515201245, 733479468)
    norm_num at a2
    rw [a2, s2]
    have a3 := md5LoopFrom_add [2150776161, 0, 0, 0, 0, 0, 0, 0, 0, 0, 0, 0, 0, 0, 24, 0] 8 4 52 (3204733646, 3522746135, 1118328657, 271555197)
    norm_num at a3
    rw [a3, s3]
    have a4 := md5LoopFrom_add [2150776161, 0, 0, 0, 0, 0, 0, 0, 0, 0, 0, 0, 0, 0, 24, 0] 12 4 48 (1814193867, 3890364118, 2414918865, 985031852)
    norm_num at a4
    rw [a4, s4]
    have a5 := md5LoopFrom_add [2150776161, 0, 0, 0, 0, 0, 0, 0, 0, 0, 0, 0, 0, 0, 24, 0] 16 4 44 (3143414161, 3009212478, 287699780, 2894966675)
    norm_num at a5
    rw [a5, s5]
    have a6 := md5LoopFrom_add [2150776161, 0, 0, 0, 0, 0, 0, 0, 0, 0, 0, 0, 0, 0, 24, 0] 20 4 40 (139843946, 3842879438, 3530935152, 1623094152)
    norm_num at a6
    rw [a6, s6]
    have a7 := md5LoopFrom_add [2150776161, 0, 0, 0, 0, 0, 0, 0, 0, 0, 0, 0, 0, 0, 24, 0] 24 4 36 (4284508104, 3379540273, 1011817757, 3577723516)
    norm_num at a7
    rw [a7, s7]
    have a8 := md5LoopFrom_add [2150776161, 0, 0, 0, 0, 0, 0, 0, 0, 0, 0, 0, 0, 0, 24, 0] 28 4 32 (531434770, 926579337, 1988240873, 1754022397)
    norm_num at a8
    rw [a8, s8]
    have a9 := md5LoopFrom_add [2150776161, 0, 0, 0, 0, 0, 0, 0, 0, 0, 0, 0, 0, 0, 24, 0] 32 4 28 (715509416, 3302958891, 3230255138, 2469333434)
    norm_num at a9
    rw [a9, s9]
    have a10 := md5LoopFrom_add [2150776161, 0, 0, 0, 0, 0, 0, 0, 0, 0, 0, 0, 0, 0, 24, 0] 36 4 24 (3867021575, 1703560189, 3061162981, 913334509)
    norm_num at a10
    rw [a10, s10]
    have a11 := md5LoopFrom_add [2150776161, 0, 0, 0, 0, 0, 0, 0, 0, 0, 0, 0, 0, 0, 24, 0] 40 4 20 (1917978628, 1441001764, 490181411, 1528273187)
    norm_num at a11
    rw [a11, s11]
    have a12 := md5LoopFrom_add [2150776161, 0, 0, 0, 0, 0, 0, 0, 0, 0, 0, 0, 0, 0, 24, 0] 44 4 16 (1090261006, 2115223797, 1333594692, 3699396222)
    norm_num at a12
    rw [a12, s12]
    have a13 := md5LoopFrom_add [2150776161, 0, 0, 0, 0, 0, 0, 0, 0, 0, 0, 0, 0, 0, 24, 0] 48 4 12 (168432213, 2019464886, 406594936, 269767243)
    norm_num at a13
    rw [a13, s13]
    have a14 := md5LoopFrom_add [2150776161, 0, 0, 0, 0, 0, 0, 0, 0, 0, 0, 0, 0, 0, 24, 0] 52 4 8 (44157135, 1154546647, 1916867855, 4112201882)
    norm_num at a14
    rw [a14, s14]
    have a15 := md5LoopFrom_add [2150776161, 0, 0, 0, 0, 0, 0, 0, 0, 0, 0, 0, 0, 0, 24, 0] 56 4 4 (1905548928, 3451731727, 1199778212, 3384650614)
    norm_num at a15
    rw [a15, s15]
    exact s16
  have hpb : md5ProcessBlock md5Init [2150776161, 0, 0, 0, 0, 0, 0, 0, 0, 0, 0, 0, 0, 0, 24, 0] = (2978654339, 1848242988, 1240997123, 859665285) := by
    unfold md5ProcessBlock
    rw [hloop]
    decide
  unfold md5
  rw [hbytes, hblocks]
  simp only [List.foldl]
  rw [hwords, hpb]
  decide

/-- The `_q_` suffix for query `a=2`. -/
theorem querySuffix4_a2 : querySuffix4 ("a=2".toList) = "g6iK".toList := by
  rw [querySuffix4, md5_digest_a2]
  decide

/-- Witness for the amended C5: `?a=1` and `?a=2` over the same path give
distinct suffixes and distinct filenames. -/
theorem filename_distinct_for_distinct_query_digests_witness :
    querySuffix4 (serializeQuery [("a".toList, "1".toList)]) ≠
      querySuffix4 (serializeQuery [("a".toList, "2".toList)]) ∧
    (Chunk.new ⟨"p?a=1".toList⟩ ChunkType.Async).filename ≠
      (Chunk.new ⟨"p?a=2".toList⟩ ChunkType.Async).filename :=
  have hs1 : serializeQuery [(("a".toList : Str), ("1".toList : Str))] =
      "a=1".toList := by decide
  have hs2 : serializeQuery [(("a".toList : Str), ("2".toList : Str))] =
      "a=2".toList := by decide
  have hne : querySuffix4 (serializeQuery [(("a".toList : Str), ("1".toList : Str))]) ≠
      querySuffix4 (serializeQuery [(("a".toList : Str), ("2".toList : Str))]) := by
    rw [hs1, hs2, querySuffix4_a1, querySuffix4_a2]
    decide
  ⟨hne,
    filename_distinct_for_distinct_query_digests
      (Chunk.new ⟨"p?a=1".toList⟩ ChunkType.Async)
      (Chunk.new ⟨"p?a=2".toList⟩ ChunkType.Async)
      ⟨"p".toList, [("a".toList, "1".toList)]⟩
      ⟨"p".toList, [("a".toList, "2".toList)]⟩
      rfl rfl rfl (by decide) (by decide) rfl
      (by rw [hs1]; decide) (by rw [hs2]; decide) hne⟩

end Mako
